import Mathlib

/-!
Verification of the Cosmos DB persistence adapter (`cosmos_data_layer.py`):
a shallow embedding of its data model and operations, with theorems checking
the natural-language specification against the code.

Documents are JSON-like dictionaries; a datetime value carries the string its
`isoformat()` call would produce.  The store is modelled as four in-memory
collections plus a single fault flag: when `failing` is set, every primitive
store call raises, which models a store/network outage.
-/

/-- A JSON-like value as handled by the adapter.  `dt iso` models a Python
`datetime` whose `isoformat()` is `iso`. -/
inductive Value where
  | null : Value
  | str (s : String) : Value
  | num (n : Int) : Value
  | bool (b : Bool) : Value
  | dt (iso : String) : Value
  | obj (fields : List (String × Value)) : Value
  | arr (items : List Value) : Value

/-- A document: a Python dict with string keys, insertion-ordered. -/
abbrev Doc := List (String × Value)

/-- Python dict read: first binding of the key, if any. -/
def getField : Doc → String → Option Value
  | [], _ => none
  | (k, v) :: rest, key => if k = key then some v else getField rest key

/-- Read a field expected to hold a string. -/
def getFieldStr (d : Doc) (key : String) : Option String :=
  match getField d key with
  | some (Value.str s) => some s
  | _ => none

/-- Python dict write `d[key] = v`: replace the first binding in place,
else append at the end. -/
def setField : Doc → String → Value → Doc
  | [], key, v => [(key, v)]
  | (k, w) :: rest, key, v =>
      if k = key then (k, v) :: rest else (k, w) :: setField rest key v

/-- Python `del d[key]`: drop the first binding of the key. -/
def delField : Doc → String → Doc
  | [], _ => []
  | (k, w) :: rest, key => if k = key then rest else (k, w) :: delField rest key

/-- Python `key in d`. -/
def hasField (d : Doc) (key : String) : Bool :=
  (getField d key).isSome

/-- Python `d.update(patch)`: assign each patch binding in order. -/
def dictUpdate (d : Doc) (patch : Doc) : Doc :=
  patch.foldl (fun acc kv => setField acc kv.1 kv.2) d

/-- Whether a field name starts with the store-internal underscore
(`k.startswith('_')`). -/
def internalKey (k : String) : Bool :=
  match k.data with
  | '_' :: _ => true
  | _ => false

/-- The `_clean_item` helper: drop every field whose name starts with
the store-internal underscore prefix. -/
def cleanItem (d : Doc) : Doc :=
  d.filter (fun kv => !internalKey kv.1)

/-- Lexicographic comparison of character lists; `lexLe a.data b.data` is the
UTF code point order on strings, which is how the store compares string
fields in `ORDER BY`. -/
def lexLe : List Char → List Char → Bool
  | [], _ => true
  | _ :: _, [] => false
  | a :: as, b :: bs => if a = b then lexLe as bs else decide (a < b)

theorem lexLe_total : ∀ as bs, lexLe as bs = true ∨ lexLe bs as = true := by
  intro as
  induction as with
  | nil => intro bs; left; rfl
  | cons a as ih =>
      intro bs
      cases bs with
      | nil => right; rfl
      | cons b bs =>
          by_cases hab : a = b
          · subst hab
            rcases ih bs with h | h
            · left; simpa [lexLe] using h
            · right; simpa [lexLe] using h
          · rcases lt_or_gt_of_ne hab with h | h
            · left; simp [lexLe, hab, h]
            · right
              have hba : b ≠ a := fun e => hab e.symm
              simp [lexLe, hba, h]

theorem lexLe_trans :
    ∀ as bs cs, lexLe as bs = true → lexLe bs cs = true → lexLe as cs = true := by
  intro as
  induction as with
  | nil => intro bs cs _ _; rfl
  | cons a as ih =>
      intro bs cs h1 h2
      cases bs with
      | nil => simp [lexLe] at h1
      | cons b bs =>
          cases cs with
          | nil => simp [lexLe] at h2
          | cons c cs =>
              by_cases hab : a = b
              · subst hab
                by_cases hbc : a = c
                · subst hbc
                  simp [lexLe] at h1 h2 ⊢
                  exact ih bs cs h1 h2
                · simp [lexLe, hbc] at h2 ⊢
                  exact h2
              · simp [lexLe, hab] at h1
                by_cases hbc : b = c
                · subst hbc
                  simp [lexLe, hab]
                  exact h1
                · simp [lexLe, hbc] at h2
                  have hac : a < c := lt_trans h1 h2
                  have : a ≠ c := ne_of_lt hac
                  simp [lexLe, this]
                  exact hac

/-- Python `feedback_id.split("::")`: cut at every non-overlapping,
leftmost-first occurrence of the two-colon separator.  (Defined by direct
recursion so that concrete instances evaluate; `String.splitOn` agrees on
this separator but does not reduce definitionally.) -/
def splitColons (acc : List Char) : List Char → List (List Char)
  | ':' :: ':' :: rest => acc.reverse :: splitColons [] rest
  | c :: rest => splitColons (c :: acc) rest
  | [] => [acc.reverse]

/-- `feedback_id.split("::")` on strings. -/
def pySplitCompositeId (s : String) : List String :=
  (splitColons [] s.data).map (fun cs => String.mk cs)

mutual

/-- The `_serialize` walk applied to one dictionary (the body of the
`for k, v in doc.items()` loop): datetime values are rendered as
`isoformat + "Z"`, nested dicts are walked recursively, and for list values
only the items that are themselves dicts are walked. -/
def serializeFields : List (String × Value) → List (String × Value)
  | [] => []
  | (k, v) :: rest => (k, serializeEntry v) :: serializeFields rest

/-- The action of `_serialize` on one dictionary value. -/
def serializeEntry : Value → Value
  | Value.dt iso => Value.str (iso ++ "Z")
  | Value.obj fs => Value.obj (serializeFields fs)
  | Value.arr items => Value.arr (serializeItems items)
  | v => v

/-- The `for item in v: if isinstance(item, dict): self._serialize(item)` loop:
only dict items of a list are walked; any other item, a datetime included,
is left as it is. -/
def serializeItems : List Value → List Value
  | [] => []
  | Value.obj fs :: rest => Value.obj (serializeFields fs) :: serializeItems rest
  | v :: rest => v :: serializeItems rest

end

/-- Top-level `_serialize(doc)`. -/
def serializeDoc (d : Doc) : Doc := serializeFields d

mutual

/-- Whether a value contains a datetime anywhere (full recursive walk,
lists included). -/
def containsDT : Value → Bool
  | Value.dt _ => true
  | Value.obj fs => containsDTFields fs
  | Value.arr items => containsDTItems items
  | _ => false

def containsDTFields : List (String × Value) → Bool
  | [] => false
  | (_, v) :: rest => containsDT v || containsDTFields rest

def containsDTItems : List Value → Bool
  | [] => false
  | v :: rest => containsDT v || containsDTItems rest

end

mutual

/-- Modelled from the spec: `normalizeForWrite` as the specification words it,
"recursively walks maps and sequences; every temporal value is rendered to
isoformat + Z" — so a datetime that is a direct element of a list is
converted too.  Used only to compare the specification against the
source-level `_serialize`. -/
def normalizeSpecVal : Value → Value
  | Value.dt iso => Value.str (iso ++ "Z")
  | Value.obj fs => Value.obj (normalizeSpecFields fs)
  | Value.arr items => Value.arr (normalizeSpecItems items)
  | v => v

def normalizeSpecFields : List (String × Value) → List (String × Value)
  | [] => []
  | (k, v) :: rest => (k, normalizeSpecVal v) :: normalizeSpecFields rest

def normalizeSpecItems : List Value → List Value
  | [] => []
  | v :: rest => normalizeSpecVal v :: normalizeSpecItems rest

end

/-- Exceptions the embedded operations can raise.  `notFound` is
`CosmosResourceNotFoundError`, `http code` any other `CosmosHttpResponseError`;
`valueError`, `keyError` and `attributeError` are the Python built-ins. -/
inductive PyErr where
  | notFound : PyErr
  | http (code : Nat) : PyErr
  | valueError (msg : String) : PyErr
  | keyError (key : String) : PyErr
  | attributeError (name : String) : PyErr

/-- The four collections plus a fault flag: when `failing` is set every
primitive store call raises a transient `http 503` error, modelling a
store/network outage. -/
structure Store where
  users : List Doc
  threads : List Doc
  steps : List Doc
  elements : List Doc
  failing : Bool

/-- Replace the first document matched by `same`, if any; otherwise append
(the Cosmos upsert within one collection). -/
def upsertList (same : Doc → Bool) (body : Doc) : List Doc → List Doc
  | [] => [body]
  | d :: rest => if same d then body :: rest else d :: upsertList same body rest

/-- Identity of a step document: partition key `threadId` plus `id`. -/
def sameStep (body d : Doc) : Bool :=
  getFieldStr d "id" = getFieldStr body "id"
    && getFieldStr d "threadId" = getFieldStr body "threadId"

/-- Identity of a user or thread document: the partition key is `/id`. -/
def sameId (body d : Doc) : Bool :=
  getFieldStr d "id" = getFieldStr body "id"

/-- Sort key used by the store for `ORDER BY c.createdAt`: the stored
`createdAt` string (stored timestamps are isoformat strings, whose
lexicographic order is chronological order). -/
def createdAtKey (d : Doc) : String :=
  match getFieldStr d "createdAt" with
  | some s => s
  | none => ""

/-- `ORDER BY c.createdAt` (ascending). -/
def stepLe (a b : Doc) : Prop :=
  lexLe (createdAtKey a).data (createdAtKey b).data = true

/-- `ORDER BY c.createdAt DESC`. -/
def threadDesc (a b : Doc) : Prop :=
  lexLe (createdAtKey b).data (createdAtKey a).data = true

instance : DecidableRel stepLe :=
  fun _ _ => inferInstanceAs (Decidable (_ = true))

instance : DecidableRel threadDesc :=
  fun _ _ => inferInstanceAs (Decidable (_ = true))

instance : IsTotal Doc stepLe :=
  ⟨fun a b => lexLe_total (createdAtKey a).data (createdAtKey b).data⟩

instance : IsTrans Doc stepLe :=
  ⟨fun _ _ _ hab hbc => lexLe_trans _ _ _ hab hbc⟩

instance : IsTotal Doc threadDesc :=
  ⟨fun a b => lexLe_total (createdAtKey b).data (createdAtKey a).data⟩

instance : IsTrans Doc threadDesc :=
  ⟨fun _ _ _ hab hbc => lexLe_trans _ _ _ hbc hab⟩

/-- The partition-scoped query of the Feedback Service:
`WHERE c.threadId = @t AND c.parentId = @f`. -/
def childQuery (st : Store) (t f : String) : Except PyErr (List Doc) :=
  if st.failing then Except.error (PyErr.http 503)
  else Except.ok (st.steps.filter
    (fun d => getFieldStr d "threadId" = some t && getFieldStr d "parentId" = some f))

/-- The store-side query behind `get_steps`:
`WHERE c.threadId = @t ORDER BY c.createdAt`.  The sort happens here, in the
store, not in the adapter. -/
def stepsOrderedQuery (st : Store) (tid : String) : Except PyErr (List Doc) :=
  if st.failing then Except.error (PyErr.http 503)
  else Except.ok (List.insertionSort stepLe
    (st.steps.filter (fun d => getFieldStr d "threadId" = some tid)))

/-- `WHERE c.id = @thread_id` on the threads collection. -/
def threadsByIdQuery (st : Store) (tid : String) : Except PyErr (List Doc) :=
  if st.failing then Except.error (PyErr.http 503)
  else Except.ok (st.threads.filter (fun d => getFieldStr d "id" = some tid))

/-- `WHERE c.threadId = @thread_id` on the elements collection. -/
def elementsByThreadQuery (st : Store) (tid : String) : Except PyErr (List Doc) :=
  if st.failing then Except.error (PyErr.http 503)
  else Except.ok (st.elements.filter (fun d => getFieldStr d "threadId" = some tid))

/-- Cross-partition `WHERE c.id = @step_id` on the steps collection. -/
def stepsByIdQuery (st : Store) (sid : String) : Except PyErr (List Doc) :=
  if st.failing then Except.error (PyErr.http 503)
  else Except.ok (st.steps.filter (fun d => getFieldStr d "id" = some sid))

def Store.withUsers (st : Store) (docs : List Doc) : Store :=
  ⟨docs, st.threads, st.steps, st.elements, st.failing⟩

def Store.withThreads (st : Store) (docs : List Doc) : Store :=
  ⟨st.users, docs, st.steps, st.elements, st.failing⟩

def Store.withSteps (st : Store) (docs : List Doc) : Store :=
  ⟨st.users, st.threads, docs, st.elements, st.failing⟩

def Store.withElements (st : Store) (docs : List Doc) : Store :=
  ⟨st.users, st.threads, st.steps, docs, st.failing⟩

/-- Point read on the threads collection (partition key is the id). -/
def Store.readThread (st : Store) (tid : String) : Except PyErr Doc :=
  if st.failing then Except.error (PyErr.http 503)
  else match st.threads.find? (fun d => getFieldStr d "id" = some tid) with
    | some d => Except.ok d
    | none => Except.error PyErr.notFound

/-- Point read on the users collection (partition key is the id). -/
def Store.readUser (st : Store) (ident : String) : Except PyErr Doc :=
  if st.failing then Except.error (PyErr.http 503)
  else match st.users.find? (fun d => getFieldStr d "id" = some ident) with
    | some d => Except.ok d
    | none => Except.error PyErr.notFound

/-- Point read on the elements collection: id within partition threadId. -/
def Store.readElement (st : Store) (eid tid : String) : Except PyErr Doc :=
  if st.failing then Except.error (PyErr.http 503)
  else match st.elements.find?
      (fun d => getFieldStr d "id" = some eid && getFieldStr d "threadId" = some tid) with
    | some d => Except.ok d
    | none => Except.error PyErr.notFound

/-- Cosmos upsert on the steps collection. -/
def Store.upsertStep (st : Store) (body : Doc) : Except PyErr Store :=
  if st.failing then Except.error (PyErr.http 503)
  else Except.ok (st.withSteps (upsertList (sameStep body) body st.steps))

/-- Cosmos upsert on the elements collection (same identity shape as steps:
partition key threadId plus id). -/
def Store.upsertElement (st : Store) (body : Doc) : Except PyErr Store :=
  if st.failing then Except.error (PyErr.http 503)
  else Except.ok (st.withElements (upsertList (sameStep body) body st.elements))

/-- Cosmos upsert on the threads collection. -/
def Store.upsertThread (st : Store) (body : Doc) : Except PyErr Store :=
  if st.failing then Except.error (PyErr.http 503)
  else Except.ok (st.withThreads (upsertList (sameId body) body st.threads))

/-- Cosmos create on the steps collection: conflict 409 when the identity
already exists. -/
def Store.createStepDoc (st : Store) (body : Doc) : Except PyErr Store :=
  if st.failing then Except.error (PyErr.http 503)
  else if st.steps.any (sameStep body) then Except.error (PyErr.http 409)
  else Except.ok (st.withSteps (st.steps ++ [body]))

/-- Cosmos create on the users collection. -/
def Store.createUserDoc (st : Store) (body : Doc) : Except PyErr Store :=
  if st.failing then Except.error (PyErr.http 503)
  else if st.users.any (sameId body) then Except.error (PyErr.http 409)
  else Except.ok (st.withUsers (st.users ++ [body]))

def removeFirst (p : Doc → Bool) : List Doc → List Doc
  | [] => []
  | d :: rest => if p d then rest else d :: removeFirst p rest

/-- Cosmos delete on the elements collection. -/
def Store.deleteElementDoc (st : Store) (eid tid : String) : Except PyErr Store :=
  if st.failing then Except.error (PyErr.http 503)
  else
    let sel := fun d => getFieldStr d "id" = some eid && getFieldStr d "threadId" = some tid
    if st.elements.any sel then Except.ok (st.withElements (removeFirst sel st.elements))
    else Except.error PyErr.notFound

/-- Cosmos delete on the steps collection. -/
def Store.deleteStepDoc (st : Store) (sid tid : String) : Except PyErr Store :=
  if st.failing then Except.error (PyErr.http 503)
  else
    let sel := fun d => getFieldStr d "id" = some sid && getFieldStr d "threadId" = some tid
    if st.steps.any sel then Except.ok (st.withSteps (removeFirst sel st.steps))
    else Except.error PyErr.notFound

/-- Cosmos delete on the threads collection. -/
def Store.deleteThreadDoc (st : Store) (tid : String) : Except PyErr Store :=
  if st.failing then Except.error (PyErr.http 503)
  else
    let sel := fun d => getFieldStr d "id" = some tid
    if st.threads.any sel then Except.ok (st.withThreads (removeFirst sel st.threads))
    else Except.error PyErr.notFound

/-- The chainlit `Feedback` record, as consumed by `upsert_feedback`. -/
structure Feedback where
  forId : Option String
  value : Int
  threadId : Option String
  comment : Option String
  id : Option String

def optStr : Option String → Value
  | some s => Value.str s
  | none => Value.null

/-- `asdict(feedback)`. -/
def Feedback.toDoc (fb : Feedback) : Doc :=
  [("forId", optStr fb.forId), ("value", Value.num fb.value),
   ("threadId", optStr fb.threadId), ("comment", optStr fb.comment),
   ("id", optStr fb.id)]

/-- `upsert_feedback`.  The guard mirrors Python truthiness
(`not feedback.threadId or not feedback.forId`): absent or empty strings are
rejected with a ValueError.  When the partition-scoped child query returns
nothing, the source calls `self._get_step(...)`; no `_get_step` method is
defined on `CosmosDBDataLayer` or on the `BaseDataLayer` interface it extends,
so Python raises an AttributeError at that point. -/
def upsert_feedback (st : Store) (fb : Feedback) : Except PyErr (String × Store) :=
  match fb.threadId, fb.forId with
  | some t, some f =>
      if t = "" || f = "" then
        Except.error (PyErr.valueError "Feedback must have a threadId and forId")
      else
        match childQuery st t f with
        | Except.error e => Except.error e
        | Except.ok [] => Except.error (PyErr.attributeError "_get_step")
        | Except.ok (step :: _) =>
            let fid := t ++ "::" ++ f
            let fb2 : Feedback := ⟨fb.forId, fb.value, fb.threadId, fb.comment, some fid⟩
            match st.upsertStep (setField step "feedback" (Value.obj (serializeDoc fb2.toDoc))) with
            | Except.error e => Except.error e
            | Except.ok st2 => Except.ok (fid, st2)
  | _, _ => Except.error (PyErr.valueError "Feedback must have a threadId and forId")

/-- `delete_feedback`.  Only the `split("::")` unpacking is inside the
try/except (a malformed id is logged and the call returns False); the
store calls and the `_get_step` fallback are unguarded. -/
def delete_feedback (st : Store) (fid : String) : Except PyErr (Bool × Store) :=
  match pySplitCompositeId fid with
  | [t, f] =>
      match childQuery st t f with
      | Except.error e => Except.error e
      | Except.ok [] => Except.error (PyErr.attributeError "_get_step")
      | Except.ok (step :: _) =>
          if !step.isEmpty && hasField step "feedback" then
            match st.upsertStep (delField step "feedback") with
            | Except.error e => Except.error e
            | Except.ok st2 => Except.ok (true, st2)
          else Except.ok (false, st)
  | _ => Except.ok (false, st)

/-- Body of `create_step` (the store action the Write Coordinator flushes):
serializes the dict and creates it, swallowing every exception. -/
def create_step (st : Store) (stepDict : Doc) : Store :=
  match st.createStepDoc (serializeDoc stepDict) with
  | Except.ok st2 => st2
  | Except.error _ => st

/-- Body of `update_step`: serialize and upsert, swallowing every exception. -/
def update_step (st : Store) (stepDict : Doc) : Store :=
  match st.upsertStep (serializeDoc stepDict) with
  | Except.ok st2 => st2
  | Except.error _ => st

/-- `get_steps`: the ordered partition query, with any store failure caught
and converted to the empty list. -/
def get_steps (st : Store) (tid : String) : List Doc :=
  match stepsOrderedQuery st tid with
  | Except.ok items => items
  | Except.error _ => []

/-- The assembled thread view.  Python `.get(key)` returning None is
modelled by a null default. -/
structure ThreadDict where
  id : Value
  createdAt : Value
  name : Value
  userId : Value
  userIdentifier : Value
  tags : Value
  metadata : Value
  steps : List Doc
  elements : List Doc

def getD0 (d : Doc) (k : String) : Value :=
  (getField d k).getD Value.null

/-- `get_thread`: point query for the root, then steps (ordered) and
elements; every store failure is caught (thread query failure returns None,
element query failure degrades to an empty element list). -/
def get_thread (st : Store) (tid : String) : Option ThreadDict :=
  match threadsByIdQuery st tid with
  | Except.error _ => none
  | Except.ok [] => none
  | Except.ok (td :: _) =>
      let raw := cleanItem td
      let steps := get_steps st tid
      let elements :=
        match elementsByThreadQuery st tid with
        | Except.ok es => es
        | Except.error _ => []
      some ⟨getD0 raw "id", getD0 raw "createdAt", getD0 raw "name", getD0 raw "userId",
            getD0 raw "userIdentifier", getD0 raw "tags", getD0 raw "metadata",
            steps.map cleanItem, elements.map cleanItem⟩

/-- Pagination input: `first` is the page size; the cursor, a numeric string
in the source, is modelled as the offset it parses to. -/
structure Pagination where
  first : Nat
  cursor : Option Nat

structure ThreadFilter where
  userId : Option String
  search : Option String

structure PageInfo where
  hasNextPage : Bool
  startCursor : Option Nat
  endCursor : Option Nat

structure PaginatedResponse where
  data : List Doc
  pageInfo : PageInfo

/-- Case-insensitive substring test, the Cosmos `CONTAINS(a, b, true)`. -/
def containsCI (hay needle : String) : Bool :=
  (List.range (hay.toLower.length + 1)).any
    (fun i => needle.toLower.isPrefixOf (hay.toLower.drop i))

/-- `c.userId = @user_id`: equality against a null parameter only matches a
stored null, and a missing field matches nothing. -/
def userIdMatches (uid : Option String) (d : Doc) : Bool :=
  match uid, getField d "userId" with
  | some u, some (Value.str s) => s = u
  | none, some Value.null => true
  | _, _ => false

/-- Optional `CONTAINS(c.name, @search, true)` clause. -/
def searchMatches (srch : Option String) (d : Doc) : Bool :=
  match srch with
  | none => true
  | some s =>
      match getFieldStr d "name" with
      | some nm => containsCI nm s
      | none => false

/-- The full filtered result set, sorted createdAt-descending (store side). -/
def threadsSorted (st : Store) (flt : ThreadFilter) : List Doc :=
  List.insertionSort threadDesc
    (st.threads.filter (fun d => userIdMatches flt.userId d && searchMatches flt.search d))

/-- The filtered, createdAt-descending thread listing query (store side). -/
def threadsListQuery (st : Store) (flt : ThreadFilter) : Except PyErr (List Doc) :=
  if st.failing then Except.error (PyErr.http 503)
  else Except.ok (threadsSorted st flt)

/-- The `ThreadDict(id=item['id'], name=item.get('name'), createdAt=item.get('createdAt'))`
summary: `item['id']` is a strict access, raising KeyError when absent. -/
def threadSummary (d : Doc) : Except PyErr Doc :=
  match getField d "id" with
  | some v =>
      Except.ok [("id", v), ("name", (getField d "name").getD Value.null),
                 ("createdAt", (getField d "createdAt").getD Value.null)]
  | none => Except.error (PyErr.keyError "id")

/-- `list_threads`: query failures are caught and yield an empty page; the
slice arithmetic and the summary construction run outside the try block. -/
def list_threads (st : Store) (pag : Pagination) (flt : ThreadFilter) :
    Except PyErr PaginatedResponse :=
  match threadsListQuery st flt with
  | Except.error _ => Except.ok ⟨[], ⟨false, pag.cursor, none⟩⟩
  | Except.ok items =>
      let start := match pag.cursor with | some c => c | none => 0
      let stop := start + pag.first
      let hasNext : Bool := decide (stop < items.length)
      match ((items.drop start).take pag.first).mapM threadSummary with
      | Except.error e => Except.error e
      | Except.ok data =>
          Except.ok ⟨data, ⟨hasNext, pag.cursor, if hasNext then some stop else none⟩⟩

def tagsPatch (item : Doc) : Option (List String) → Doc
  | some ts => setField item "tags" (Value.arr (ts.map Value.str))
  | none => item

/-- The name and userId sections of the `update_thread` patch: name, then
userId (which also sets userIdentifier), in source order. -/
def patchNameUid (d : Doc) (nm uid : Option String) : Doc :=
  let i1 := match nm with | some n => setField d "name" (Value.str n) | none => d
  match uid with
  | some u => setField (setField i1 "userId" (Value.str u)) "userIdentifier" (Value.str u)
  | none => i1

/-- The merge-patch section of `update_thread`: name, userId (which also sets
userIdentifier), metadata (merged via `dict.update`, after defaulting a
missing or null metadata to an empty dict) and tags, in source order.
A stored metadata value that is neither a dict nor null would make the
`.update` call raise AttributeError. -/
def applyThreadPatch (item : Doc) (name userId : Option String)
    (metadata : Option Doc) (tags : Option (List String)) : Except PyErr Doc :=
  let item2 := patchNameUid item name userId
  match metadata with
  | some m =>
      match getField item2 "metadata" with
      | none => Except.ok (tagsPatch (setField item2 "metadata" (Value.obj (dictUpdate [] m))) tags)
      | some Value.null =>
          Except.ok (tagsPatch (setField item2 "metadata" (Value.obj (dictUpdate [] m))) tags)
      | some (Value.obj fs) =>
          Except.ok (tagsPatch (setField item2 "metadata" (Value.obj (dictUpdate fs m))) tags)
      | some _ => Except.error (PyErr.attributeError "update")
  | none => Except.ok (tagsPatch item2 tags)

/-- Final upsert of `update_thread`, wrapped in try/except in the source. -/
def Store.upsertThreadSwallow (st : Store) (body : Doc) : Store :=
  match st.upsertThread body with
  | Except.ok st2 => st2
  | Except.error _ => st

/-- `update_thread`: read the root (not found creates a fresh
`(id, createdAt)` root; any other read failure returns), merge-patch, then
serialize and upsert.  `now` is the `datetime.utcnow().isoformat()` of the
call. -/
def update_thread (st : Store) (tid : String) (name userId : Option String)
    (metadata : Option Doc) (tags : Option (List String)) (now : String) :
    Except PyErr Store :=
  match st.readThread tid with
  | Except.error PyErr.notFound =>
      match applyThreadPatch [("id", Value.str tid), ("createdAt", Value.str (now ++ "Z"))]
          name userId metadata tags with
      | Except.error e => Except.error e
      | Except.ok item => Except.ok (st.upsertThreadSwallow (serializeDoc item))
  | Except.error _ => Except.ok st
  | Except.ok item =>
      match applyThreadPatch item name userId metadata tags with
      | Except.error e => Except.error e
      | Except.ok item2 => Except.ok (st.upsertThreadSwallow (serializeDoc item2))

/-- Body of `create_element`: upsert of the serialized element dict,
swallowing every exception. -/
def create_element (st : Store) (element : Doc) : Store :=
  match st.upsertElement (serializeDoc element) with
  | Except.ok st2 => st2
  | Except.error _ => st

/-- `get_element`: point read; not found and store failures both return None. -/
def get_element (st : Store) (tid eid : String) : Option Doc :=
  match st.readElement eid tid with
  | Except.ok item => some (cleanItem item)
  | Except.error _ => none

/-- Body of `delete_element`: a falsy threadId (absent or empty) is logged
and the call returns without touching the store; otherwise delete, with
not-found and store failures swallowed. -/
def delete_element (st : Store) (eid : String) (tid : Option String) : Store :=
  match tid with
  | none => st
  | some t =>
      if t = "" then st
      else
        match st.deleteElementDoc eid t with
        | Except.ok st2 => st2
        | Except.error _ => st

/-- Body of `delete_step`: cross-partition lookup of the owning thread, then
delete; every failure (missing threadId field included) is swallowed. -/
def delete_step (st : Store) (sid : String) : Store :=
  match stepsByIdQuery st sid with
  | Except.error _ => st
  | Except.ok [] => st
  | Except.ok (item :: _) =>
      match getFieldStr item "threadId" with
      | none => st
      | some tid =>
          match st.deleteStepDoc sid tid with
          | Except.ok st2 => st2
          | Except.error _ => st

/-- `get_thread_author`: the userId of the root, empty string when the
thread is missing, the field is absent, or the store fails. -/
def get_thread_author (st : Store) (tid : String) : String :=
  match st.readThread tid with
  | Except.ok item =>
      match getFieldStr item "userId" with
      | some u => u
      | none => ""
  | Except.error _ => ""

/-- `delete_thread`: delete the root only (no cascade), failures swallowed. -/
def delete_thread (st : Store) (tid : String) : Store :=
  match st.deleteThreadDoc tid with
  | Except.ok st2 => st2
  | Except.error _ => st

/-- The chainlit `User` argument of `create_user`. -/
structure UserRec where
  identifier : String
  display_name : Option String
  metadata : Option Doc

/-- The identifier fixup of `get_user`: a missing or null identifier falls
back to the id field, or to the requested identifier. -/
def fixIdentifier (cleaned : Doc) (ident : String) : Doc :=
  match getField cleaned "identifier" with
  | none => setField cleaned "identifier" ((getField cleaned "id").getD (Value.str ident))
  | some Value.null => setField cleaned "identifier" ((getField cleaned "id").getD (Value.str ident))
  | some _ => cleaned

/-- `get_user`: point read; the `PersistedUser` result is modelled as its
field dictionary.  Not found and store failures both return None. -/
def get_user (st : Store) (ident : String) : Option Doc :=
  match st.readUser ident with
  | Except.ok userDoc => some (fixIdentifier (cleanItem userDoc) ident)
  | Except.error _ => none

/-- `create_user`: build the user document (display name falls back to the
identifier under Python truthiness), create it; a 409 conflict re-reads the
existing user, any other failure returns None. -/
def create_user (st : Store) (user : UserRec) (now : String) : Option Doc × Store :=
  let ident2 := match user.display_name with
    | some dn => if dn = "" then user.identifier else dn
    | none => user.identifier
  let userDoc : Doc :=
    [("id", Value.str user.identifier), ("identifier", Value.str ident2),
     ("createdAt", Value.str (now ++ "Z")), ("metadata", Value.obj (user.metadata.getD []))]
  match st.createUserDoc userDoc with
  | Except.ok st2 => (some userDoc, st2)
  | Except.error (PyErr.http 409) => (get_user st user.identifier, st)
  | Except.error _ => (none, st)

/-- `get_or_create_user`. -/
def get_or_create_user (st : Store) (user : UserRec) (now : String) : Option Doc × Store :=
  match get_user st user.identifier with
  | some u => (some u, st)
  | none => create_user st user now

/-- A request buffered by the Write Coordinator. -/
inductive BufferedOp where
  | createStepOp (d : Doc)
  | updateStepOp (d : Doc)
  | createElementOp (d : Doc)
  | deleteElementOp (eid : String) (tid : Option String)
  | deleteStepOp (sid : String)

/-- Flushing one buffered request runs the decorated store action from the
source. -/
def applyOp (st : Store) : BufferedOp → Store
  | BufferedOp.createStepOp d => create_step st d
  | BufferedOp.updateStepOp d => update_step st d
  | BufferedOp.createElementOp d => create_element st d
  | BufferedOp.deleteElementOp eid tid => delete_element st eid tid
  | BufferedOp.deleteStepOp sid => delete_step st sid

/-- One logical session: the store plus the per-session Write Coordinator
queue. -/
structure Session where
  store : Store
  queued : List BufferedOp

/-- Modelled from the spec: the `queue_until_user_message` decorator lives in
the chainlit host package, not in this repository.  Per the specification,
invoking a decorated operation during a session only appends the request to
the session queue, in arrival order; no store call is issued. -/
def sessionInvoke (s : Session) (op : BufferedOp) : Session :=
  ⟨s.store, s.queued ++ [op]⟩

/-- Run a whole sequence of buffered invocations. -/
def runSession (s : Session) (ops : List BufferedOp) : Session :=
  ops.foldl sessionInvoke s

/-- Modelled from the spec: the user-message-commit release barrier flushes
the buffered requests to the store in their original arrival order. -/
def releaseBarrier (s : Session) : Store :=
  s.queued.foldl applyOp s.store

/-- Modelled from the spec: a session torn down before the barrier drops its
buffered requests; nothing reaches the store. -/
def teardownSession (s : Session) : Store :=
  s.store

/-! Helper lemmas about the document model. -/

theorem getField_setField_self (d : Doc) (k : String) (v : Value) :
    getField (setField d k v) k = some v := by
  induction d with
  | nil => simp [setField, getField]
  | cons kv rest ih =>
      obtain ⟨k0, v0⟩ := kv
      by_cases h : k0 = k
      · rw [setField, if_pos h, getField, if_pos h]
      · rw [setField, if_neg h, getField, if_neg h]
        exact ih

theorem getField_setField_ne (d : Doc) (k : String) (v : Value) (k2 : String)
    (h : k2 ≠ k) : getField (setField d k v) k2 = getField d k2 := by
  induction d with
  | nil => simp [setField, getField, Ne.symm h]
  | cons kv rest ih =>
      obtain ⟨k0, v0⟩ := kv
      by_cases h0 : k0 = k
      · have hne : k0 ≠ k2 := by rw [h0]; exact Ne.symm h
        rw [setField, if_pos h0, getField, if_neg hne, getField, if_neg hne]
      · rw [setField, if_neg h0, getField, getField]
        by_cases h2 : k0 = k2
        · rw [if_pos h2, if_pos h2]
        · rw [if_neg h2, if_neg h2]
          exact ih

theorem getField_delField_ne (d : Doc) (k k2 : String) (h : k2 ≠ k) :
    getField (delField d k) k2 = getField d k2 := by
  induction d with
  | nil => rfl
  | cons kv rest ih =>
      obtain ⟨k0, v0⟩ := kv
      by_cases h0 : k0 = k
      · have hne : k0 ≠ k2 := by rw [h0]; exact Ne.symm h
        rw [delField, if_pos h0, getField, if_neg hne]
      · rw [delField, if_neg h0, getField, getField]
        by_cases h2 : k0 = k2
        · rw [if_pos h2, if_pos h2]
        · rw [if_neg h2, if_neg h2]
          exact ih

theorem getField_eq_none_of_not_mem (d : Doc) (k : String)
    (h : k ∉ d.map Prod.fst) : getField d k = none := by
  induction d with
  | nil => rfl
  | cons kv rest ih =>
      obtain ⟨k0, v0⟩ := kv
      simp only [List.map_cons, List.mem_cons] at h
      push_neg at h
      rw [getField, if_neg (fun e => h.1 e.symm)]
      exact ih h.2

theorem getField_delField_self (d : Doc) (k : String)
    (h : (d.map Prod.fst).Nodup) : getField (delField d k) k = none := by
  induction d with
  | nil => rfl
  | cons kv rest ih =>
      obtain ⟨k0, v0⟩ := kv
      simp only [List.map_cons, List.nodup_cons] at h
      by_cases h0 : k0 = k
      · rw [delField, if_pos h0]
        exact getField_eq_none_of_not_mem rest k (h0 ▸ h.1)
      · rw [delField, if_neg h0, getField, if_neg h0]
        exact ih h.2

theorem setField_ne_nil (d : Doc) (k : String) (v : Value) :
    (setField d k v).isEmpty = false := by
  cases d with
  | nil => rfl
  | cons kv rest =>
      obtain ⟨k0, v0⟩ := kv
      by_cases h : k0 = k
      · rw [setField, if_pos h]
        rfl
      · rw [setField, if_neg h]
        rfl

theorem getField_serializeFields (d : Doc) (k : String) :
    getField (serializeFields d) k = (getField d k).map serializeEntry := by
  induction d with
  | nil => rfl
  | cons kv rest ih =>
      obtain ⟨k0, v0⟩ := kv
      rw [serializeFields, getField, getField]
      by_cases h : k0 = k
      · rw [if_pos h, if_pos h]
        rfl
      · rw [if_neg h, if_neg h]
        exact ih

theorem getField_dictUpdate (d patch : Doc) (k : String)
    (h : (patch.map Prod.fst).Nodup) :
    getField (dictUpdate d patch) k =
      match getField patch k with
      | some v => some v
      | none => getField d k := by
  induction patch generalizing d with
  | nil => rfl
  | cons kv rest ih =>
      obtain ⟨pk, pv⟩ := kv
      simp only [List.map_cons, List.nodup_cons] at h
      have step : dictUpdate d ((pk, pv) :: rest) = dictUpdate (setField d pk pv) rest := rfl
      rw [step, ih (setField d pk pv) h.2]
      by_cases hk : pk = k
      · subst hk
        rw [getField_eq_none_of_not_mem rest pk h.1, getField, if_pos rfl]
        exact getField_setField_self d pk pv
      · rw [getField, if_neg hk]
        cases hr : getField rest k with
        | some v => rfl
        | none => exact getField_setField_ne d pk pv k (fun e => hk e.symm)

/-! Datetime-freeness lemmas for the normalizer. -/

mutual

theorem serializeEntry_id_of_dtFree : ∀ v, containsDT v = false → serializeEntry v = v
  | Value.null, _ => rfl
  | Value.str _, _ => rfl
  | Value.num _, _ => rfl
  | Value.bool _, _ => rfl
  | Value.dt _, h => by simp [containsDT] at h
  | Value.obj fs, h => by
      rw [serializeEntry, serializeFields_id_of_dtFree fs (by simpa [containsDT] using h)]
  | Value.arr items, h => by
      rw [serializeEntry, serializeItems_id_of_dtFree items (by simpa [containsDT] using h)]

theorem serializeFields_id_of_dtFree :
    ∀ fs, containsDTFields fs = false → serializeFields fs = fs
  | [], _ => rfl
  | (k, v) :: rest, h => by
      rw [containsDTFields, Bool.or_eq_false_iff] at h
      rw [serializeFields, serializeEntry_id_of_dtFree v h.1,
        serializeFields_id_of_dtFree rest h.2]

theorem serializeItems_id_of_dtFree :
    ∀ items, containsDTItems items = false → serializeItems items = items
  | [], _ => rfl
  | Value.null :: rest, h => by
      rw [containsDTItems, Bool.or_eq_false_iff] at h
      show Value.null :: serializeItems rest = Value.null :: rest
      rw [serializeItems_id_of_dtFree rest h.2]
  | Value.str s :: rest, h => by
      rw [containsDTItems, Bool.or_eq_false_iff] at h
      show Value.str s :: serializeItems rest = Value.str s :: rest
      rw [serializeItems_id_of_dtFree rest h.2]
  | Value.num n :: rest, h => by
      rw [containsDTItems, Bool.or_eq_false_iff] at h
      show Value.num n :: serializeItems rest = Value.num n :: rest
      rw [serializeItems_id_of_dtFree rest h.2]
  | Value.bool b :: rest, h => by
      rw [containsDTItems, Bool.or_eq_false_iff] at h
      show Value.bool b :: serializeItems rest = Value.bool b :: rest
      rw [serializeItems_id_of_dtFree rest h.2]
  | Value.dt iso :: rest, h => by
      rw [containsDTItems, Bool.or_eq_false_iff] at h
      simp [containsDT] at h
  | Value.obj fs :: rest, h => by
      rw [containsDTItems, Bool.or_eq_false_iff] at h
      rw [serializeItems, serializeFields_id_of_dtFree fs (by simpa [containsDT] using h.1),
        serializeItems_id_of_dtFree rest h.2]
  | Value.arr xs :: rest, h => by
      rw [containsDTItems, Bool.or_eq_false_iff] at h
      show Value.arr xs :: serializeItems rest = Value.arr xs :: rest
      rw [serializeItems_id_of_dtFree rest h.2]

end

theorem containsDT_getField (d : Doc) (k : String) (v : Value)
    (hd : containsDTFields d = false) (hv : getField d k = some v) :
    containsDT v = false := by
  induction d with
  | nil => simp [getField] at hv
  | cons kv rest ih =>
      obtain ⟨k0, v0⟩ := kv
      rw [containsDTFields, Bool.or_eq_false_iff] at hd
      rw [getField] at hv
      by_cases h : k0 = k
      · rw [if_pos h] at hv
        cases hv
        exact hd.1
      · rw [if_neg h] at hv
        exact ih hd.2 hv

theorem containsDTFields_setField (d : Doc) (k : String) (v : Value)
    (hd : containsDTFields d = false) (hv : containsDT v = false) :
    containsDTFields (setField d k v) = false := by
  induction d with
  | nil => simp [setField, containsDTFields, hv]
  | cons kv rest ih =>
      obtain ⟨k0, v0⟩ := kv
      rw [containsDTFields, Bool.or_eq_false_iff] at hd
      by_cases h : k0 = k
      · rw [setField, if_pos h, containsDTFields, Bool.or_eq_false_iff]
        exact ⟨hv, hd.2⟩
      · rw [setField, if_neg h, containsDTFields, Bool.or_eq_false_iff]
        exact ⟨hd.1, ih hd.2⟩

theorem containsDTFields_dictUpdate (d patch : Doc)
    (hd : containsDTFields d = false) (hp : containsDTFields patch = false) :
    containsDTFields (dictUpdate d patch) = false := by
  induction patch generalizing d with
  | nil => exact hd
  | cons kv rest ih =>
      obtain ⟨pk, pv⟩ := kv
      rw [containsDTFields, Bool.or_eq_false_iff] at hp
      exact ih (setField d pk pv) (containsDTFields_setField d pk pv hd hp.1) hp.2

/-! Positions the `_serialize` walk actually visits: dictionary values,
recursively through nested dictionaries and through dictionaries that are
direct list elements.  `walkClearFields` asserts no datetime is left at any
such position. -/

mutual

def walkValClear : Value → Bool
  | Value.dt _ => false
  | Value.obj fs => walkClearFields fs
  | Value.arr items => walkItemsClear items
  | _ => true

def walkClearFields : List (String × Value) → Bool
  | [] => true
  | (_, v) :: rest => walkValClear v && walkClearFields rest

def walkItemsClear : List Value → Bool
  | [] => true
  | Value.obj fs :: rest => walkClearFields fs && walkItemsClear rest
  | _ :: rest => walkItemsClear rest

end

mutual

theorem walkValClear_serializeEntry : ∀ v, walkValClear (serializeEntry v) = true
  | Value.null => rfl
  | Value.str _ => rfl
  | Value.num _ => rfl
  | Value.bool _ => rfl
  | Value.dt _ => rfl
  | Value.obj fs => walkClearFields_serializeFields fs
  | Value.arr items => walkItemsClear_serializeItems items

theorem walkClearFields_serializeFields :
    ∀ fs, walkClearFields (serializeFields fs) = true
  | [] => rfl
  | (k, v) :: rest => by
      rw [serializeFields, walkClearFields, walkValClear_serializeEntry v,
        walkClearFields_serializeFields rest, Bool.and_self]

theorem walkItemsClear_serializeItems :
    ∀ items, walkItemsClear (serializeItems items) = true
  | [] => rfl
  | Value.null :: rest => walkItemsClear_serializeItems rest
  | Value.str _ :: rest => walkItemsClear_serializeItems rest
  | Value.num _ :: rest => walkItemsClear_serializeItems rest
  | Value.bool _ :: rest => walkItemsClear_serializeItems rest
  | Value.dt _ :: rest => walkItemsClear_serializeItems rest
  | Value.obj fs :: rest => by
      rw [serializeItems, walkItemsClear, walkClearFields_serializeFields fs,
        walkItemsClear_serializeItems rest, Bool.and_self]
  | Value.arr xs :: rest => walkItemsClear_serializeItems rest

end

/-! List decomposition lemmas for queries and upserts. -/

theorem filter_decomp (p : Doc → Bool) (pre post : List Doc) (s : Doc)
    (hpre : ∀ d ∈ pre, p d = false) (hs : p s = true) :
    (pre ++ s :: post).filter p = s :: post.filter p := by
  induction pre with
  | nil => simp [List.filter_cons, hs]
  | cons d rest ih =>
      have hd : p d = false := hpre d (List.mem_cons_self d rest)
      have hrest : ∀ x ∈ rest, p x = false := fun x hx => hpre x (List.mem_cons_of_mem d hx)
      simp [List.filter_cons, hd, ih hrest]

theorem upsertList_decomp (same : Doc → Bool) (body : Doc) (pre post : List Doc) (s : Doc)
    (hpre : ∀ d ∈ pre, same d = false) (hs : same s = true) :
    upsertList same body (pre ++ s :: post) = pre ++ body :: post := by
  induction pre with
  | nil => simp [upsertList, hs]
  | cons d rest ih =>
      have hd : same d = false := hpre d (List.mem_cons_self d rest)
      have hrest : ∀ x ∈ rest, same x = false := fun x hx => hpre x (List.mem_cons_of_mem d hx)
      simp [upsertList, hd, ih hrest]

theorem find_upsertList (p : Doc → Bool) (same : Doc → Bool) (body : Doc) (docs : List Doc)
    (hb : p body = true) (hsame : ∀ d, p d = true ↔ same d = true) :
    (upsertList same body docs).find? p = some body := by
  induction docs with
  | nil => simp [upsertList, List.find?, hb]
  | cons d rest ih =>
      by_cases h : same d = true
      · rw [upsertList, if_pos h]
        simp [List.find?, hb]
      · have hp : p d = false := by
          cases hpd : p d with
          | false => rfl
          | true => exact absurd ((hsame d).mp hpd) (by simpa using h)
        rw [upsertList, if_neg (by simpa using h)]
        simp [List.find?, hp, ih]

/-! Concrete fixtures used by counterexamples and witnesses. -/

/-- A step that exists under its own id but has no child step answering it:
the Feedback Service can resolve it only through the id fallback. -/
def feedbackStepDoc : Doc :=
  [("id", Value.str "s1"), ("threadId", Value.str "t1"),
   ("createdAt", Value.str "2024-05-01T10:00:00")]

def fallbackStore : Store := ⟨[], [], [feedbackStepDoc], [], false⟩

def fbForS1 : Feedback := ⟨some "s1", 1, some "t1", none, none⟩

/-- A document whose only datetime sits directly inside a list. -/
def dtListDoc : Doc := [("ts", Value.arr [Value.dt "2024-05-01T10:00:00"])]

def elemDoc : Doc := [("id", Value.str "e1"), ("threadId", Value.str "t1")]

def elemStore : Store := ⟨[], [], [], [elemDoc], false⟩

theorem runSession_closed (ops : List BufferedOp) :
    ∀ st q, runSession ⟨st, q⟩ ops = ⟨st, q ++ ops⟩ := by
  induction ops with
  | nil => intro st q; simp [runSession]
  | cons op rest ih =>
      intro st q
      have h1 : runSession ⟨st, q⟩ (op :: rest) = runSession ⟨st, q ++ [op]⟩ rest := rfl
      rw [h1, ih st (q ++ [op]), List.append_assoc]
      rfl

/-- C1: the spec says `upsert_feedback` falls back to treating forId as the
target step id and fails with ValidationError exactly when neither lookup
resolves.  In the source the fallback calls `self._get_step`, a method
defined neither on `CosmosDBDataLayer` nor on its `BaseDataLayer` interface,
so the fallback path raises AttributeError instead: here the step `s1`
exists in thread `t1` (the fallback should resolve it), the child query is
empty, and the call errors with AttributeError, not a ValidationError. -/
theorem c1_fallback_raises_attribute_error_not_validation :
    (fallbackStore.steps.filter
      (fun d => getFieldStr d "threadId" = some "t1"
        && getFieldStr d "parentId" = some "s1")) = []
    ∧ getFieldStr feedbackStepDoc "id" = some "s1"
    ∧ feedbackStepDoc ∈ fallbackStore.steps
    ∧ upsert_feedback fallbackStore fbForS1 = Except.error (PyErr.attributeError "_get_step") :=
  ⟨rfl, rfl, List.mem_singleton.mpr rfl, rfl⟩

/-- C2 counterexample: on a composite id with no `::` separator,
`delete_feedback` does not fail with any error — it returns False and leaves
the store untouched, refuting "fails with a ValidationError". -/
theorem c2_malformed_id_returns_false_without_raising :
    delete_feedback fallbackStore "malformed-feedback-id" =
      Except.ok (false, fallbackStore) := rfl

/-- C2 amended: for every input string with no `::` separator (the split
yields a single part), `delete_feedback` returns False without raising and
performs no store mutation. -/
theorem c2_malformed_id_no_mutation (st : Store) (fid : String)
    (h : (pySplitCompositeId fid).length = 1) :
    delete_feedback st fid = Except.ok (false, st) := by
  rcases List.length_eq_one.mp h with ⟨x, hx⟩
  rw [delete_feedback, hx]

theorem c2_malformed_id_no_mutation_witness :
    (pySplitCompositeId "no-separator").length = 1
    ∧ delete_feedback elemStore "no-separator" = Except.ok (false, elemStore) :=
  ⟨rfl, c2_malformed_id_no_mutation elemStore "no-separator" rfl⟩

/-- C5: before the user-message-commit release barrier, invoking the
buffered operations (createStep, updateStep, createElement, deleteElement,
deleteStep) issues no store write: the store after any sequence of
invocations equals the initial store, the queue holds the requests in
arrival order, releasing the barrier flushes them by running the decorated
store actions sequentially in that order (so writes to one document id keep
their submission order), and tearing the session down instead drops them
all, leaving the store untouched. -/
theorem c5_write_coordinator_buffers_flushes_in_order_drops_on_teardown
    (st : Store) (ops : List BufferedOp) :
    (runSession ⟨st, []⟩ ops).store = st
    ∧ (runSession ⟨st, []⟩ ops).queued = ops
    ∧ releaseBarrier (runSession ⟨st, []⟩ ops) = ops.foldl applyOp st
    ∧ teardownSession (runSession ⟨st, []⟩ ops) = st := by
  rw [runSession_closed ops st []]
  exact ⟨rfl, by simp, by simp [releaseBarrier], rfl⟩

/-- C7 counterexample: a datetime that is a direct element of a list is NOT
replaced by the write-path normalizer — `_serialize` only recurses into list
items that are dictionaries — while the normalizer the specification
describes would convert it. -/
theorem c7_datetime_in_list_left_unserialized :
    serializeDoc dtListDoc = dtListDoc
    ∧ containsDTFields (serializeDoc dtListDoc) = true
    ∧ normalizeSpecFields dtListDoc =
        [("ts", Value.arr [Value.str "2024-05-01T10:00:00Z"])] :=
  ⟨rfl, rfl, rfl⟩

/-- C7 amended: the write-path normalizer replaces every datetime at a
position its walk visits — map values, recursively through nested maps and
through maps that are direct list elements — by isoformat + Z, and leaves
any value containing no datetime unchanged; datetimes that are direct
(non-map) list elements are outside the walk and stay as they are. -/
theorem c7_normalizer_clears_walked_positions_and_preserves_non_temporal
    (fs : Doc) :
    walkClearFields (serializeDoc fs) = true
    ∧ (∀ v, containsDT v = false → serializeEntry v = v) :=
  ⟨walkClearFields_serializeFields fs,
   fun v hv => serializeEntry_id_of_dtFree v hv⟩

theorem c7_normalizer_witness :
    walkClearFields (serializeDoc dtListDoc) = true
    ∧ containsDT (Value.str "plain") = false
    ∧ serializeEntry (Value.str "plain") = Value.str "plain" :=
  ⟨(c7_normalizer_clears_walked_positions_and_preserves_non_temporal dtListDoc).1,
   rfl,
   (c7_normalizer_clears_walked_positions_and_preserves_non_temporal dtListDoc).2
     (Value.str "plain") rfl⟩

/-- C10 counterexample: `delete_element` called without a threadId returns
silently — no ValidationError, no store call — even though the element
exists; the store is returned unchanged, refuting "fails fast with a
ValidationError". -/
theorem c10_delete_element_without_thread_id_returns_silently :
    delete_element elemStore "e1" none = elemStore := rfl

/-- C10 amended: when the threadId partition key is omitted (absent, or the
empty string, both falsy in the source guard), `delete_element` logs and
returns without issuing any store call, leaving the store unchanged; it
raises nothing. -/
theorem c10_delete_element_missing_thread_id_noop (st : Store) (eid : String)
    (tid : Option String) (h : tid = none ∨ tid = some "") :
    delete_element st eid tid = st := by
  rcases h with h | h
  · rw [h]
    rfl
  · rw [h]
    rfl

theorem c10_delete_element_missing_thread_id_noop_witness :
    (some "" = (none : Option String) ∨ (some "" = some ""))
    ∧ delete_element fallbackStore "e1" (some "") = fallbackStore :=
  ⟨Or.inr rfl, c10_delete_element_missing_thread_id_noop fallbackStore "e1" (some "") (Or.inr rfl)⟩

def threadDocW : Doc :=
  [("id", Value.str "t1"), ("createdAt", Value.str "2024-05-01T00:00:00"),
   ("userId", Value.str "u1")]

def stepLaterW : Doc :=
  [("id", Value.str "b"), ("threadId", Value.str "t1"),
   ("createdAt", Value.str "2024-05-02T00:00:00")]

def stepEarlierW : Doc :=
  [("id", Value.str "a"), ("threadId", Value.str "t1"),
   ("createdAt", Value.str "2024-05-01T12:00:00")]

/-- A store whose steps were written newest-first, to exercise the sort. -/
def stepsStoreW : Store := ⟨[], [threadDocW], [stepLaterW, stepEarlierW], [], false⟩

/-- C3: for every thread id and every arrangement of the stored steps,
`get_steps` returns exactly the store query result (the `ORDER BY
c.createdAt` sort happens in the store, the adapter does not reorder), that
result is sorted non-decreasing by createdAt and is a permutation of the
thread partition content regardless of write order, and `get_thread` embeds
that same ordered list (with internal fields stripped). -/
theorem c3_get_steps_sorted_by_store_query (st : Store) (tid : String)
    (hfail : st.failing = false) :
    stepsOrderedQuery st tid = Except.ok (get_steps st tid)
    ∧ List.Sorted stepLe (get_steps st tid)
    ∧ (get_steps st tid).Perm
        (st.steps.filter (fun d => getFieldStr d "threadId" = some tid))
    ∧ (get_thread st tid).elim True
        (fun td => td.steps = (get_steps st tid).map cleanItem) := by
  have hq : stepsOrderedQuery st tid =
      Except.ok (List.insertionSort stepLe
        (st.steps.filter (fun d => getFieldStr d "threadId" = some tid))) := by
    simp [stepsOrderedQuery, hfail]
  have hg : get_steps st tid =
      List.insertionSort stepLe
        (st.steps.filter (fun d => getFieldStr d "threadId" = some tid)) := by
    simp [get_steps, hq]
  refine ⟨by rw [hq, hg], ?_, ?_, ?_⟩
  · rw [hg]
    exact List.sorted_insertionSort stepLe _
  · rw [hg]
    exact List.perm_insertionSort stepLe _
  · have hthreads : threadsByIdQuery st tid =
        Except.ok (st.threads.filter (fun d => getFieldStr d "id" = some tid)) := by
      simp [threadsByIdQuery, hfail]
    rw [get_thread, hthreads]
    cases st.threads.filter (fun d => getFieldStr d "id" = some tid) with
    | nil => exact trivial
    | cons td rest => simp [Option.elim]

theorem c3_get_steps_sorted_by_store_query_witness :
    stepsStoreW.failing = false
    ∧ (stepsOrderedQuery stepsStoreW "t1" = Except.ok (get_steps stepsStoreW "t1")
    ∧ List.Sorted stepLe (get_steps stepsStoreW "t1")
    ∧ (get_steps stepsStoreW "t1").Perm
        (stepsStoreW.steps.filter (fun d => getFieldStr d "threadId" = some "t1"))
    ∧ (get_thread stepsStoreW "t1").elim True
        (fun td => td.steps = (get_steps stepsStoreW "t1").map cleanItem)) :=
  ⟨rfl, c3_get_steps_sorted_by_store_query stepsStoreW "t1" rfl⟩

/-- A store in outage: every primitive call raises a transient error. -/
def outageStore : Store := ⟨[], [], [], [], true⟩

/-- C8 counterexample: during a store outage, `upsert_feedback` and
`delete_feedback` (on a well-formed composite id) let the transient store
exception escape to the caller — their query and upsert calls are not
guarded — refuting "no operation other than initial provisioning lets a
store exception escape". -/
theorem c8_feedback_ops_propagate_store_failure :
    upsert_feedback outageStore fbForS1 = Except.error (PyErr.http 503)
    ∧ delete_feedback outageStore "t1::s1" = Except.error (PyErr.http 503) :=
  ⟨rfl, rfl⟩

/-- C8 amended: for every operation other than the two feedback operations,
a transient store failure is caught and converted to that operation's safe
default (empty list, empty page, absent/None, empty string, or an unchanged
store) instead of propagating. -/
theorem c8_store_outage_converted_to_safe_defaults (st : Store)
    (hfail : st.failing = true) (tid eid sid ident now : String)
    (pag : Pagination) (flt : ThreadFilter) (nm uid : Option String)
    (meta : Option Doc) (tags : Option (List String)) (user : UserRec)
    (d : Doc) (tidOpt : Option String) :
    get_steps st tid = []
    ∧ list_threads st pag flt = Except.ok ⟨[], ⟨false, pag.cursor, none⟩⟩
    ∧ get_thread st tid = none
    ∧ get_element st tid eid = none
    ∧ get_user st ident = none
    ∧ create_user st user now = (none, st)
    ∧ get_or_create_user st user now = (none, st)
    ∧ update_thread st tid nm uid meta tags now = Except.ok st
    ∧ create_step st d = st
    ∧ update_step st d = st
    ∧ create_element st d = st
    ∧ delete_element st eid tidOpt = st
    ∧ delete_step st sid = st
    ∧ delete_thread st tid = st
    ∧ get_thread_author st tid = "" := by
  refine ⟨?_, ?_, ?_, ?_, ?_, ?_, ?_, ?_, ?_, ?_, ?_, ?_, ?_, ?_, ?_⟩
  · simp [get_steps, stepsOrderedQuery, hfail]
  · simp [list_threads, threadsListQuery, hfail]
  · simp [get_thread, threadsByIdQuery, hfail]
  · simp [get_element, Store.readElement, hfail]
  · simp [get_user, Store.readUser, hfail]
  · simp [create_user, Store.createUserDoc, hfail]
  · simp [get_or_create_user, get_user, Store.readUser, create_user,
      Store.createUserDoc, hfail]
  · simp [update_thread, Store.readThread, hfail]
  · simp [create_step, Store.createStepDoc, hfail]
  · simp [update_step, Store.upsertStep, hfail]
  · simp [create_element, Store.upsertElement, hfail]
  · cases tidOpt with
    | none => rfl
    | some t =>
        by_cases ht : t = ""
        · simp [delete_element, ht]
        · simp [delete_element, ht, Store.deleteElementDoc, hfail]
  · simp [delete_step, stepsByIdQuery, hfail]
  · simp [delete_thread, Store.deleteThreadDoc, hfail]
  · simp [get_thread_author, Store.readThread, hfail]

theorem c8_store_outage_witness :
    outageStore.failing = true
    ∧ get_steps outageStore "t1" = []
    ∧ list_threads outageStore ⟨10, none⟩ ⟨some "u1", none⟩ =
        Except.ok ⟨[], ⟨false, none, none⟩⟩
    ∧ get_thread outageStore "t1" = none
    ∧ get_element outageStore "t1" "e1" = none
    ∧ get_user outageStore "alice" = none
    ∧ create_user outageStore ⟨"alice", none, none⟩ "2024-05-01T00:00:00" =
        (none, outageStore)
    ∧ get_or_create_user outageStore ⟨"alice", none, none⟩ "2024-05-01T00:00:00" =
        (none, outageStore)
    ∧ update_thread outageStore "t1" none none none none "2024-05-01T00:00:00" =
        Except.ok outageStore
    ∧ create_step outageStore feedbackStepDoc = outageStore
    ∧ update_step outageStore feedbackStepDoc = outageStore
    ∧ create_element outageStore elemDoc = outageStore
    ∧ delete_element outageStore "e1" (some "t1") = outageStore
    ∧ delete_step outageStore "s1" = outageStore
    ∧ delete_thread outageStore "t1" = outageStore
    ∧ get_thread_author outageStore "t1" = "" :=
  ⟨rfl, c8_store_outage_converted_to_safe_defaults outageStore rfl "t1" "e1" "s1"
    "alice" "2024-05-01T00:00:00" ⟨10, none⟩ ⟨some "u1", none⟩ none none none none
    ⟨"alice", none, none⟩ feedbackStepDoc (some "t1")⟩

/-! Characterization of the `update_thread` merge patch. -/

def metaFieldsOf (d : Doc) : Doc :=
  match getField d "metadata" with
  | some (Value.obj fs) => fs
  | _ => []

/-- Whether the stored metadata value is one `dict.update` accepts (a dict)
or one the source replaces by an empty dict (absent or null). -/
def metaOk (d : Doc) : Bool :=
  match getField d "metadata" with
  | none => true
  | some Value.null => true
  | some (Value.obj _) => true
  | some _ => false

/-- The document `update_thread` upserts (before serialization), as a total
function of the read document and the patch. -/
def patchedThread (d : Doc) (nm uid : Option String) (meta : Option Doc)
    (tags : Option (List String)) : Doc :=
  let i2 := patchNameUid d nm uid
  let i3 := match meta with
    | some mp => setField i2 "metadata" (Value.obj (dictUpdate (metaFieldsOf i2) mp))
    | none => i2
  tagsPatch i3 tags

/-- The fresh root `update_thread` builds when the thread is absent. -/
def freshThreadRoot (tid now : String) : Doc :=
  [("id", Value.str tid), ("createdAt", Value.str (now ++ "Z"))]

/-- The thread root visible in the store after an `update_thread` result. -/
def threadRootAfter (r : Except PyErr Store) (tid : String) : Option Doc :=
  match r with
  | Except.ok st2 => st2.threads.find? (fun d => getFieldStr d "id" = some tid)
  | Except.error _ => none

/-- One field of that root. -/
def rootField (r : Except PyErr Store) (tid k : String) : Option Value :=
  (threadRootAfter r tid).bind (fun d2 => getField d2 k)

theorem getField_patchNameUid_ne (d : Doc) (nm uid : Option String) (k : String)
    (h1 : k ≠ "name") (h2 : k ≠ "userId") (h3 : k ≠ "userIdentifier") :
    getField (patchNameUid d nm uid) k = getField d k := by
  cases nm with
  | none =>
      cases uid with
      | none => rfl
      | some u =>
          simp only [patchNameUid]
          rw [getField_setField_ne _ _ _ _ h3, getField_setField_ne _ _ _ _ h2]
  | some n =>
      cases uid with
      | none =>
          simp only [patchNameUid]
          rw [getField_setField_ne _ _ _ _ h1]
      | some u =>
          simp only [patchNameUid]
          rw [getField_setField_ne _ _ _ _ h3, getField_setField_ne _ _ _ _ h2,
            getField_setField_ne _ _ _ _ h1]

theorem metaFieldsOf_patchNameUid (d : Doc) (nm uid : Option String) :
    metaFieldsOf (patchNameUid d nm uid) = metaFieldsOf d := by
  unfold metaFieldsOf
  rw [getField_patchNameUid_ne d nm uid "metadata"
    (by decide) (by decide) (by decide)]

theorem getField_tagsPatch_ne (d : Doc) (tags : Option (List String)) (k : String)
    (h : k ≠ "tags") : getField (tagsPatch d tags) k = getField d k := by
  cases tags with
  | none => rfl
  | some ts => exact getField_setField_ne _ _ _ _ h

theorem getField_patchedThread_frame (d : Doc) (nm uid : Option String)
    (meta : Option Doc) (tags : Option (List String)) (k : String)
    (h1 : k ≠ "name") (h2 : k ≠ "userId") (h3 : k ≠ "userIdentifier")
    (h4 : k ≠ "metadata") (h5 : k ≠ "tags") :
    getField (patchedThread d nm uid meta tags) k = getField d k := by
  unfold patchedThread
  cases meta with
  | none =>
      rw [getField_tagsPatch_ne _ _ _ h5, getField_patchNameUid_ne d nm uid k h1 h2 h3]
  | some mp =>
      rw [getField_tagsPatch_ne _ _ _ h5, getField_setField_ne _ _ _ _ h4,
        getField_patchNameUid_ne d nm uid k h1 h2 h3]

theorem getField_patchedThread_metadata (d : Doc) (nm uid : Option String)
    (mp : Doc) (tags : Option (List String)) :
    getField (patchedThread d nm uid (some mp) tags) "metadata" =
      some (Value.obj (dictUpdate (metaFieldsOf d) mp)) := by
  unfold patchedThread
  rw [getField_tagsPatch_ne _ _ _ (by decide), getField_setField_self,
    metaFieldsOf_patchNameUid]

theorem getField_patchedThread_metadata_none (d : Doc) (nm uid : Option String)
    (tags : Option (List String)) :
    getField (patchedThread d nm uid none tags) "metadata" =
      getField d "metadata" := by
  unfold patchedThread
  rw [getField_tagsPatch_ne _ _ _ (by decide),
    getField_patchNameUid_ne d nm uid "metadata" (by decide) (by decide) (by decide)]

theorem getField_patchedThread_name (d : Doc) (uid : Option String)
    (meta : Option Doc) (tags : Option (List String)) (n : String) :
    getField (patchedThread d (some n) uid meta tags) "name" =
      some (Value.str n) := by
  unfold patchedThread
  have base : getField (patchNameUid d (some n) uid) "name" = some (Value.str n) := by
    cases uid with
    | none => exact getField_setField_self d "name" (Value.str n)
    | some u =>
        simp only [patchNameUid]
        rw [getField_setField_ne _ _ _ _ (by decide),
          getField_setField_ne _ _ _ _ (by decide)]
        exact getField_setField_self d "name" (Value.str n)
  cases meta with
  | none => rw [getField_tagsPatch_ne _ _ _ (by decide)]; exact base
  | some mp =>
      rw [getField_tagsPatch_ne _ _ _ (by decide),
        getField_setField_ne _ _ _ _ (by decide)]
      exact base

theorem getField_patchedThread_name_none (d : Doc) (uid : Option String)
    (meta : Option Doc) (tags : Option (List String)) :
    getField (patchedThread d none uid meta tags) "name" = getField d "name" := by
  unfold patchedThread
  have base : getField (patchNameUid d none uid) "name" = getField d "name" := by
    cases uid with
    | none => rfl
    | some u =>
        simp only [patchNameUid]
        rw [getField_setField_ne _ _ _ _ (by decide),
          getField_setField_ne _ _ _ _ (by decide)]
  cases meta with
  | none => rw [getField_tagsPatch_ne _ _ _ (by decide)]; exact base
  | some mp =>
      rw [getField_tagsPatch_ne _ _ _ (by decide),
        getField_setField_ne _ _ _ _ (by decide)]
      exact base

theorem getField_patchedThread_userId_none (d : Doc) (nm : Option String)
    (meta : Option Doc) (tags : Option (List String)) :
    getField (patchedThread d nm none meta tags) "userId" = getField d "userId"
    ∧ getField (patchedThread d nm none meta tags) "userIdentifier" =
        getField d "userIdentifier" := by
  unfold patchedThread
  have base1 : getField (patchNameUid d nm none) "userId" = getField d "userId" := by
    cases nm with
    | none => rfl
    | some n =>
        simp only [patchNameUid]
        rw [getField_setField_ne _ _ _ _ (by decide)]
  have base2 : getField (patchNameUid d nm none) "userIdentifier" =
      getField d "userIdentifier" := by
    cases nm with
    | none => rfl
    | some n =>
        simp only [patchNameUid]
        rw [getField_setField_ne _ _ _ _ (by decide)]
  cases meta with
  | none =>
      rw [getField_tagsPatch_ne _ _ _ (by decide), getField_tagsPatch_ne _ _ _ (by decide)]
      exact ⟨base1, base2⟩
  | some mp =>
      rw [getField_tagsPatch_ne _ _ _ (by decide), getField_setField_ne _ _ _ _ (by decide),
        getField_tagsPatch_ne _ _ _ (by decide), getField_setField_ne _ _ _ _ (by decide)]
      exact ⟨base1, base2⟩

theorem getField_patchedThread_tags_none (d : Doc) (nm uid : Option String)
    (meta : Option Doc) :
    getField (patchedThread d nm uid meta none) "tags" = getField d "tags" := by
  unfold patchedThread
  cases meta with
  | none =>
      exact getField_patchNameUid_ne d nm uid "tags" (by decide) (by decide) (by decide)
  | some mp =>
      rw [tagsPatch, getField_setField_ne _ _ _ _ (by decide)]
      exact getField_patchNameUid_ne d nm uid "tags" (by decide) (by decide) (by decide)

theorem applyThreadPatch_ok (d : Doc) (nm uid : Option String) (meta : Option Doc)
    (tags : Option (List String)) (hmetaok : metaOk d = true) :
    applyThreadPatch d nm uid meta tags = Except.ok (patchedThread d nm uid meta tags) := by
  have hmeta2 : getField (patchNameUid d nm uid) "metadata" = getField d "metadata" :=
    getField_patchNameUid_ne d nm uid "metadata" (by decide) (by decide) (by decide)
  cases meta with
  | none => rfl
  | some mp =>
      rw [metaOk] at hmetaok
      unfold applyThreadPatch patchedThread metaFieldsOf
      simp only [hmeta2]
      cases hm : getField d "metadata" with
      | none => rfl
      | some v =>
          cases v with
          | null => rfl
          | obj fs => rfl
          | str sv => rw [hm] at hmetaok; simp at hmetaok
          | num nv => rw [hm] at hmetaok; simp at hmetaok
          | bool bv => rw [hm] at hmetaok; simp at hmetaok
          | dt dv => rw [hm] at hmetaok; simp at hmetaok
          | arr xs => rw [hm] at hmetaok; simp at hmetaok

theorem metaFieldsOf_dtFree (d : Doc) (hdt : containsDTFields d = false) :
    containsDTFields (metaFieldsOf d) = false := by
  unfold metaFieldsOf
  cases hm : getField d "metadata" with
  | none => rfl
  | some v =>
      cases v with
      | obj fs => exact containsDT_getField d "metadata" (Value.obj fs) hdt hm
      | null => rfl
      | str s => rfl
      | num n => rfl
      | bool b => rfl
      | dt iso => rfl
      | arr xs => rfl

theorem update_thread_resolves (st : Store) (tid : String) (nm uid : Option String)
    (meta : Option Doc) (tags : Option (List String)) (now : String) (d : Doc)
    (hfail : st.failing = false)
    (hroot : st.threads.find? (fun x => getFieldStr x "id" = some tid) = some d
      ∨ (st.threads.find? (fun x => getFieldStr x "id" = some tid) = none
         ∧ d = freshThreadRoot tid now))
    (hmetaok : metaOk d = true) :
    update_thread st tid nm uid meta tags now =
      Except.ok (st.upsertThreadSwallow (serializeDoc (patchedThread d nm uid meta tags))) := by
  rcases hroot with h | h
  · have hr : st.readThread tid = Except.ok d := by
      simp [Store.readThread, hfail, h]
    rw [update_thread, hr]
    show (match applyThreadPatch d nm uid meta tags with
      | Except.error e => Except.error e
      | Except.ok item2 => Except.ok (st.upsertThreadSwallow (serializeDoc item2))) =
      Except.ok (st.upsertThreadSwallow (serializeDoc (patchedThread d nm uid meta tags)))
    rw [applyThreadPatch_ok d nm uid meta tags hmetaok]
  · have hr : st.readThread tid = Except.error PyErr.notFound := by
      simp [Store.readThread, hfail, h.1]
    rw [update_thread, hr]
    show (match applyThreadPatch (freshThreadRoot tid now) nm uid meta tags with
      | Except.error e => Except.error e
      | Except.ok item => Except.ok (st.upsertThreadSwallow (serializeDoc item))) =
      Except.ok (st.upsertThreadSwallow (serializeDoc (patchedThread d nm uid meta tags)))
    rw [← h.2, applyThreadPatch_ok d nm uid meta tags hmetaok]

theorem threadRootAfter_upsert (st : Store) (tid : String) (item2 : Doc)
    (hfail : st.failing = false)
    (hid : getField item2 "id" = some (Value.str tid)) :
    threadRootAfter (Except.ok (st.upsertThreadSwallow (serializeDoc item2))) tid =
      some (serializeDoc item2) := by
  have hidser : getFieldStr (serializeDoc item2) "id" = some tid := by
    rw [getFieldStr, serializeDoc, getField_serializeFields, hid]
    rfl
  have hsw : st.upsertThreadSwallow (serializeDoc item2) =
      st.withThreads (upsertList (sameId (serializeDoc item2)) (serializeDoc item2) st.threads) := by
    simp [Store.upsertThreadSwallow, Store.upsertThread, hfail]
  rw [hsw]
  show (upsertList (sameId (serializeDoc item2)) (serializeDoc item2) st.threads).find?
      (fun x => getFieldStr x "id" = some tid) = some (serializeDoc item2)
  apply find_upsertList
  · simp [hidser]
  · intro x
    simp [sameId, hidser]

/-- C6: `update_thread` has merge-patch semantics.  With the resolved root
document d (the stored root, or the fresh `(id, createdAt)` root when the
thread is absent): every field outside the patched ones keeps its prior
value; name, userId/userIdentifier and tags keep their prior values when not
supplied; a supplied metadata map is merged into the existing metadata —
existing keys are preserved unless the patch overwrites them, never
wholesale replaced; and when the root does not exist the call still
succeeds, creating a root whose createdAt is the fresh timestamp of the
call. -/
theorem c6_update_thread_merge_patch (st : Store) (tid : String)
    (nm uid : Option String) (meta : Option Doc) (tags : Option (List String))
    (now : String) (d : Doc)
    (hfail : st.failing = false)
    (hroot : st.threads.find? (fun x => getFieldStr x "id" = some tid) = some d
      ∨ (st.threads.find? (fun x => getFieldStr x "id" = some tid) = none
         ∧ d = freshThreadRoot tid now))
    (hid : getField d "id" = some (Value.str tid))
    (hdt : containsDTFields d = false)
    (hmetaok : metaOk d = true)
    (hmp : ∀ mp, meta = some mp →
      containsDTFields mp = false ∧ (mp.map Prod.fst).Nodup) :
    (threadRootAfter (update_thread st tid nm uid meta tags now) tid).isSome = true
    ∧ (∀ k, k ≠ "name" → k ≠ "userId" → k ≠ "userIdentifier" → k ≠ "metadata" →
        k ≠ "tags" →
        rootField (update_thread st tid nm uid meta tags now) tid k = getField d k)
    ∧ (nm = none →
        rootField (update_thread st tid nm uid meta tags now) tid "name" =
          getField d "name")
    ∧ (uid = none →
        rootField (update_thread st tid nm uid meta tags now) tid "userId" =
            getField d "userId"
        ∧ rootField (update_thread st tid nm uid meta tags now) tid "userIdentifier" =
            getField d "userIdentifier")
    ∧ (tags = none →
        rootField (update_thread st tid nm uid meta tags now) tid "tags" =
          getField d "tags")
    ∧ (meta = none →
        rootField (update_thread st tid nm uid meta tags now) tid "metadata" =
          getField d "metadata")
    ∧ (∀ mp, meta = some mp →
        rootField (update_thread st tid nm uid meta tags now) tid "metadata" =
            some (Value.obj (dictUpdate (metaFieldsOf d) mp))
        ∧ ∀ k, getField (dictUpdate (metaFieldsOf d) mp) k =
            match getField mp k with
            | some v => some v
            | none => getField (metaFieldsOf d) k)
    ∧ (st.threads.find? (fun x => getFieldStr x "id" = some tid) = none →
        rootField (update_thread st tid nm uid meta tags now) tid "createdAt" =
          some (Value.str (now ++ "Z"))) := by
  have hr := update_thread_resolves st tid nm uid meta tags now d hfail hroot hmetaok
  have hid2 : getField (patchedThread d nm uid meta tags) "id" = some (Value.str tid) := by
    rw [getField_patchedThread_frame d nm uid meta tags "id"
      (by decide) (by decide) (by decide) (by decide) (by decide)]
    exact hid
  have hra : threadRootAfter (update_thread st tid nm uid meta tags now) tid =
      some (serializeDoc (patchedThread d nm uid meta tags)) := by
    rw [hr]
    exact threadRootAfter_upsert st tid (patchedThread d nm uid meta tags) hfail hid2
  have hfield : ∀ k, rootField (update_thread st tid nm uid meta tags now) tid k =
      (getField (patchedThread d nm uid meta tags) k).map serializeEntry := by
    intro k
    rw [rootField, hra]
    show getField (serializeDoc (patchedThread d nm uid meta tags)) k = _
    rw [serializeDoc, getField_serializeFields]
  have hmap : ∀ k, (getField d k).map serializeEntry = getField d k := by
    intro k
    cases hv : getField d k with
    | none => rfl
    | some v =>
        show some (serializeEntry v) = some v
        rw [serializeEntry_id_of_dtFree v (containsDT_getField d k v hdt hv)]
  refine ⟨?_, ?_, ?_, ?_, ?_, ?_, ?_, ?_⟩
  · rw [hra]
    rfl
  · intro k h1 h2 h3 h4 h5
    rw [hfield, getField_patchedThread_frame d nm uid meta tags k h1 h2 h3 h4 h5,
      hmap k]
  · intro h
    subst h
    rw [hfield, getField_patchedThread_name_none, hmap "name"]
  · intro h
    subst h
    exact ⟨by rw [hfield, (getField_patchedThread_userId_none d nm meta tags).1,
        hmap "userId"],
      by rw [hfield, (getField_patchedThread_userId_none d nm meta tags).2,
        hmap "userIdentifier"]⟩
  · intro h
    subst h
    rw [hfield, getField_patchedThread_tags_none, hmap "tags"]
  · intro h
    subst h
    rw [hfield, getField_patchedThread_metadata_none, hmap "metadata"]
  · intro mp hm
    subst hm
    constructor
    · rw [hfield, getField_patchedThread_metadata]
      show some (Value.obj (serializeFields (dictUpdate (metaFieldsOf d) mp))) = _
      rw [serializeFields_id_of_dtFree (dictUpdate (metaFieldsOf d) mp)
        (containsDTFields_dictUpdate (metaFieldsOf d) mp
          (metaFieldsOf_dtFree d hdt) (hmp mp rfl).1)]
    · intro k
      exact getField_dictUpdate (metaFieldsOf d) mp k (hmp mp rfl).2
  · intro hn
    have hd : d = freshThreadRoot tid now := by
      rcases hroot with h | h
      · rw [h] at hn
        exact absurd hn (by simp)
      · exact h.2
    rw [hfield, getField_patchedThread_frame d nm uid meta tags "createdAt"
      (by decide) (by decide) (by decide) (by decide) (by decide), hd]
    rfl

def c6root : Doc :=
  [("id", Value.str "t1"), ("createdAt", Value.str "2024-05-01T00:00:00Z"),
   ("name", Value.str "old-name"),
   ("metadata", Value.obj [("a", Value.str "1"), ("b", Value.str "2")])]

def c6store : Store := ⟨[], [c6root], [], [], false⟩

def c6patch : Doc := [("b", Value.str "3"), ("c", Value.str "4")]

theorem c6_update_thread_merge_patch_witness :
    (threadRootAfter (update_thread c6store "t1" none none (some c6patch) none
      "2024-06-01T00:00:00") "t1").isSome = true
    ∧ rootField (update_thread c6store "t1" none none (some c6patch) none
        "2024-06-01T00:00:00") "t1" "createdAt" = getField c6root "createdAt"
    ∧ rootField (update_thread c6store "t1" none none (some c6patch) none
        "2024-06-01T00:00:00") "t1" "name" = getField c6root "name"
    ∧ rootField (update_thread c6store "t1" none none (some c6patch) none
        "2024-06-01T00:00:00") "t1" "metadata" =
        some (Value.obj (dictUpdate (metaFieldsOf c6root) c6patch))
    ∧ getField (dictUpdate (metaFieldsOf c6root) c6patch) "a" =
        getField (metaFieldsOf c6root) "a"
    ∧ getField (dictUpdate (metaFieldsOf c6root) c6patch) "b" =
        some (Value.str "3") := by
  have hmp : ∀ mp, (some c6patch : Option Doc) = some mp →
      containsDTFields mp = false ∧ (mp.map Prod.fst).Nodup := by
    intro mp hm
    injection hm with h
    subst h
    exact ⟨rfl, by decide⟩
  have T := c6_update_thread_merge_patch c6store "t1" none none (some c6patch) none
    "2024-06-01T00:00:00" c6root rfl (Or.inl rfl) rfl rfl rfl hmp
  exact ⟨T.1,
    T.2.1 "createdAt" (by decide) (by decide) (by decide) (by decide) (by decide),
    T.2.2.1 rfl,
    (T.2.2.2.2.2.2.1 c6patch rfl).1,
    (T.2.2.2.2.2.2.1 c6patch rfl).2 "a",
    (T.2.2.2.2.2.2.1 c6patch rfl).2 "b"⟩

theorem getFieldStr_setField_ne (d : Doc) (k : String) (v : Value) (k2 : String)
    (h : k2 ≠ k) : getFieldStr (setField d k v) k2 = getFieldStr d k2 := by
  unfold getFieldStr
  rw [getField_setField_ne d k v k2 h]

theorem getFieldStr_delField_ne (d : Doc) (k k2 : String) (h : k2 ≠ k) :
    getFieldStr (delField d k) k2 = getFieldStr d k2 := by
  unfold getFieldStr
  rw [getField_delField_ne d k k2 h]

theorem mem_keys_setField (d : Doc) (k : String) (v : Value) (x : String)
    (hx : x ∈ (setField d k v).map Prod.fst) :
    x ∈ d.map Prod.fst ∨ x = k := by
  induction d with
  | nil =>
      simp [setField] at hx
      exact Or.inr hx
  | cons kv rest ih =>
      obtain ⟨k0, v0⟩ := kv
      by_cases h0 : k0 = k
      · rw [setField, if_pos h0] at hx
        simp only [List.map_cons, List.mem_cons] at hx ⊢
        rcases hx with hx | hx
        · exact Or.inl (Or.inl hx)
        · exact Or.inl (Or.inr hx)
      · rw [setField, if_neg h0] at hx
        simp only [List.map_cons, List.mem_cons] at hx ⊢
        rcases hx with hx | hx
        · exact Or.inl (Or.inl hx)
        · rcases ih hx with h | h
          · exact Or.inl (Or.inr h)
          · exact Or.inr h

theorem nodup_keys_setField (d : Doc) (k : String) (v : Value)
    (h : (d.map Prod.fst).Nodup) : ((setField d k v).map Prod.fst).Nodup := by
  induction d with
  | nil => simp [setField]
  | cons kv rest ih =>
      obtain ⟨k0, v0⟩ := kv
      simp only [List.map_cons, List.nodup_cons] at h
      by_cases h0 : k0 = k
      · rw [setField, if_pos h0]
        simp only [List.map_cons, List.nodup_cons]
        exact h
      · rw [setField, if_neg h0]
        simp only [List.map_cons, List.nodup_cons]
        refine ⟨fun hmem => ?_, ih h.2⟩
        rcases mem_keys_setField rest k v k0 hmem with hm | hm
        · exact h.1 hm
        · exact h0 hm

/-- The serialized feedback object `upsert_feedback` embeds on the resolved
step. -/
def fbVal (t f : String) (v : Int) (c : Option String) : Value :=
  Value.obj (serializeDoc (Feedback.toDoc ⟨some f, v, some t, c, some (t ++ "::" ++ f)⟩))

/-- The resolved step after `upsert_feedback`. -/
def withFeedback (s : Doc) (t f : String) (v : Int) (c : Option String) : Doc :=
  setField s "feedback" (fbVal t f v c)

/-- The resolved step after the subsequent `delete_feedback`. -/
def withoutFeedback (s : Doc) (t f : String) (v : Int) (c : Option String) : Doc :=
  delField (withFeedback s t f v c) "feedback"

theorem Store.withSteps_failing (st : Store) (l : List Doc) :
    (st.withSteps l).failing = st.failing := rfl

theorem Store.withSteps_steps (st : Store) (l : List Doc) :
    (st.withSteps l).steps = l := rfl

theorem Store.withSteps_withSteps (st : Store) (l1 l2 : List Doc) :
    (st.withSteps l1).withSteps l2 = st.withSteps l2 := rfl

theorem childQuery_found (st : Store) (pre post : List Doc) (x : Doc) (t f : String)
    (hfail : st.failing = false)
    (hsteps : st.steps = pre ++ x :: post)
    (hx1 : getFieldStr x "threadId" = some t)
    (hx2 : getFieldStr x "parentId" = some f)
    (hpre : ∀ d ∈ pre,
      ¬(getFieldStr d "threadId" = some t ∧ getFieldStr d "parentId" = some f)) :
    childQuery st t f = Except.ok (x :: post.filter
      (fun d => getFieldStr d "threadId" = some t && getFieldStr d "parentId" = some f)) := by
  have hpre2 : ∀ d ∈ pre,
      (getFieldStr d "threadId" = some t && getFieldStr d "parentId" = some f : Bool) = false := by
    intro d hd
    by_cases h1 : getFieldStr d "threadId" = some t
    · by_cases h2 : getFieldStr d "parentId" = some f
      · exact absurd ⟨h1, h2⟩ (hpre d hd)
      · simp [h2]
    · simp [h1]
  have hx : (getFieldStr x "threadId" = some t && getFieldStr x "parentId" = some f : Bool) = true := by
    simp [hx1, hx2]
  unfold childQuery
  rw [hsteps]
  simp only [hfail, Bool.false_eq_true, if_false]
  rw [filter_decomp _ pre post x hpre2 hx]

theorem upsertStep_found (st : Store) (pre post : List Doc) (x body : Doc)
    (hfail : st.failing = false)
    (hsteps : st.steps = pre ++ x :: post)
    (hbid : getFieldStr body "id" = getFieldStr x "id")
    (hbtid : getFieldStr body "threadId" = getFieldStr x "threadId")
    (hkey : ∀ d ∈ pre, ¬(getFieldStr d "id" = getFieldStr x "id"
      ∧ getFieldStr d "threadId" = getFieldStr x "threadId")) :
    st.upsertStep body = Except.ok (st.withSteps (pre ++ body :: post)) := by
  have hsame : sameStep body x = true := by
    unfold sameStep
    rw [hbid, hbtid]
    simp
  have hpre2 : ∀ d ∈ pre, sameStep body d = false := by
    intro d hd
    unfold sameStep
    rw [hbid, hbtid]
    by_cases h1 : getFieldStr d "id" = getFieldStr x "id"
    · by_cases h2 : getFieldStr d "threadId" = getFieldStr x "threadId"
      · exact absurd ⟨h1, h2⟩ (hkey d hd)
      · simp [h2]
    · simp [h1]
  unfold Store.upsertStep
  rw [hsteps]
  simp only [hfail, Bool.false_eq_true, if_false]
  rw [upsertList_decomp (sameStep body) body pre post x hpre2 hsame]

theorem upsert_feedback_found (st : Store) (pre post : List Doc) (s : Doc)
    (t f : String) (v : Int) (c : Option String)
    (hfail : st.failing = false)
    (hsteps : st.steps = pre ++ s :: post)
    (ht : t ≠ "") (hf : f ≠ "")
    (hs1 : getFieldStr s "threadId" = some t)
    (hs2 : getFieldStr s "parentId" = some f)
    (hpre : ∀ d ∈ pre,
      ¬(getFieldStr d "threadId" = some t ∧ getFieldStr d "parentId" = some f))
    (hkey : ∀ d ∈ pre, ¬(getFieldStr d "id" = getFieldStr s "id"
      ∧ getFieldStr d "threadId" = getFieldStr s "threadId")) :
    upsert_feedback st ⟨some f, v, some t, c, none⟩ =
      Except.ok (t ++ "::" ++ f, st.withSteps (pre ++ withFeedback s t f v c :: post)) := by
  have hq := childQuery_found st pre post s t f hfail hsteps hs1 hs2 hpre
  have hbid : getFieldStr (withFeedback s t f v c) "id" = getFieldStr s "id" :=
    getFieldStr_setField_ne s "feedback" (fbVal t f v c) "id" (by decide)
  have hbtid : getFieldStr (withFeedback s t f v c) "threadId" = getFieldStr s "threadId" :=
    getFieldStr_setField_ne s "feedback" (fbVal t f v c) "threadId" (by decide)
  have hup := upsertStep_found st pre post s (withFeedback s t f v c) hfail hsteps
    hbid hbtid hkey
  unfold upsert_feedback
  simp only [ht, hf]
  rw [hq]
  show (match st.upsertStep (setField s "feedback"
      (Value.obj (serializeDoc (Feedback.toDoc
        ⟨some f, v, some t, c, some (t ++ "::" ++ f)⟩)))) with
    | Except.error e => Except.error e
    | Except.ok st2 => Except.ok (t ++ "::" ++ f, st2)) =
    Except.ok (t ++ "::" ++ f, st.withSteps (pre ++ withFeedback s t f v c :: post))
  rw [show setField s "feedback" (Value.obj (serializeDoc (Feedback.toDoc
      ⟨some f, v, some t, c, some (t ++ "::" ++ f)⟩))) = withFeedback s t f v c from rfl]
  rw [hup]

theorem delete_feedback_removes (st : Store) (pre post : List Doc) (x : Doc)
    (t f : String)
    (hfail : st.failing = false)
    (hsteps : st.steps = pre ++ x :: post)
    (hsplit : pySplitCompositeId (t ++ "::" ++ f) = [t, f])
    (hx1 : getFieldStr x "threadId" = some t)
    (hx2 : getFieldStr x "parentId" = some f)
    (hpre : ∀ d ∈ pre,
      ¬(getFieldStr d "threadId" = some t ∧ getFieldStr d "parentId" = some f))
    (hkey : ∀ d ∈ pre, ¬(getFieldStr d "id" = getFieldStr x "id"
      ∧ getFieldStr d "threadId" = getFieldStr x "threadId"))
    (hfb : hasField x "feedback" = true)
    (hne : x.isEmpty = false) :
    delete_feedback st (t ++ "::" ++ f) =
      Except.ok (true, st.withSteps (pre ++ delField x "feedback" :: post)) := by
  have hq := childQuery_found st pre post x t f hfail hsteps hx1 hx2 hpre
  have hbid : getFieldStr (delField x "feedback") "id" = getFieldStr x "id" :=
    getFieldStr_delField_ne x "feedback" "id" (by decide)
  have hbtid : getFieldStr (delField x "feedback") "threadId" = getFieldStr x "threadId" :=
    getFieldStr_delField_ne x "feedback" "threadId" (by decide)
  have hup := upsertStep_found st pre post x (delField x "feedback") hfail hsteps
    hbid hbtid hkey
  unfold delete_feedback
  rw [hsplit]
  simp only [hq, hne, hfb, Bool.not_false, Bool.and_self, if_true]
  rw [hup]

theorem delete_feedback_no_field (st : Store) (pre post : List Doc) (x : Doc)
    (t f : String)
    (hfail : st.failing = false)
    (hsteps : st.steps = pre ++ x :: post)
    (hsplit : pySplitCompositeId (t ++ "::" ++ f) = [t, f])
    (hx1 : getFieldStr x "threadId" = some t)
    (hx2 : getFieldStr x "parentId" = some f)
    (hpre : ∀ d ∈ pre,
      ¬(getFieldStr d "threadId" = some t ∧ getFieldStr d "parentId" = some f))
    (hfb : hasField x "feedback" = false) :
    delete_feedback st (t ++ "::" ++ f) = Except.ok (false, st) := by
  have hq := childQuery_found st pre post x t f hfail hsteps hx1 hx2 hpre
  unfold delete_feedback
  rw [hsplit]
  simp only [hq, hfb, Bool.and_false, if_false]
  simp

/-- C9 amended: for every feedback target resolved by the child lookup — the
thread t partition has a step s with parentId f, first such match, step ids
unique in the partition, t and f nonempty and the composite id splitting
back into (t, f) — `upsert_feedback` returns exactly t ++ "::" ++ f and
embeds the feedback on s; `delete_feedback` on that returned id removes the
feedback field from that step and returns true; and a second
`delete_feedback` on the same id returns false and leaves the store
unchanged. -/
theorem c9_feedback_round_trip (st : Store) (pre post : List Doc) (s : Doc)
    (t f : String) (v : Int) (c : Option String)
    (hfail : st.failing = false)
    (hsteps : st.steps = pre ++ s :: post)
    (ht : t ≠ "") (hf : f ≠ "")
    (hsplit : pySplitCompositeId (t ++ "::" ++ f) = [t, f])
    (hs1 : getFieldStr s "threadId" = some t)
    (hs2 : getFieldStr s "parentId" = some f)
    (hpre : ∀ d ∈ pre,
      ¬(getFieldStr d "threadId" = some t ∧ getFieldStr d "parentId" = some f))
    (hkey : ∀ d ∈ pre, ¬(getFieldStr d "id" = getFieldStr s "id"
      ∧ getFieldStr d "threadId" = getFieldStr s "threadId"))
    (hnodup : (s.map Prod.fst).Nodup) :
    upsert_feedback st ⟨some f, v, some t, c, none⟩ =
        Except.ok (t ++ "::" ++ f, st.withSteps (pre ++ withFeedback s t f v c :: post))
    ∧ delete_feedback (st.withSteps (pre ++ withFeedback s t f v c :: post))
        (t ++ "::" ++ f) =
        Except.ok (true, st.withSteps (pre ++ withoutFeedback s t f v c :: post))
    ∧ hasField (withoutFeedback s t f v c) "feedback" = false
    ∧ delete_feedback (st.withSteps (pre ++ withoutFeedback s t f v c :: post))
        (t ++ "::" ++ f) =
        Except.ok (false, st.withSteps (pre ++ withoutFeedback s t f v c :: post)) := by
  have hbid : getFieldStr (withFeedback s t f v c) "id" = getFieldStr s "id" :=
    getFieldStr_setField_ne s "feedback" (fbVal t f v c) "id" (by decide)
  have hbtid : getFieldStr (withFeedback s t f v c) "threadId" = getFieldStr s "threadId" :=
    getFieldStr_setField_ne s "feedback" (fbVal t f v c) "threadId" (by decide)
  have hbpid : getFieldStr (withFeedback s t f v c) "parentId" = getFieldStr s "parentId" :=
    getFieldStr_setField_ne s "feedback" (fbVal t f v c) "parentId" (by decide)
  have hb2id : getFieldStr (withoutFeedback s t f v c) "id" = getFieldStr s "id" := by
    rw [withoutFeedback,
      getFieldStr_delField_ne (withFeedback s t f v c) "feedback" "id" (by decide), hbid]
  have hb2tid : getFieldStr (withoutFeedback s t f v c) "threadId" = getFieldStr s "threadId" := by
    rw [withoutFeedback,
      getFieldStr_delField_ne (withFeedback s t f v c) "feedback" "threadId" (by decide),
      hbtid]
  have hb2pid : getFieldStr (withoutFeedback s t f v c) "parentId" = getFieldStr s "parentId" := by
    rw [withoutFeedback,
      getFieldStr_delField_ne (withFeedback s t f v c) "feedback" "parentId" (by decide),
      hbpid]
  have hfb1 : hasField (withFeedback s t f v c) "feedback" = true := by
    unfold hasField withFeedback
    rw [getField_setField_self]
    rfl
  have hfb2 : hasField (withoutFeedback s t f v c) "feedback" = false := by
    unfold hasField withoutFeedback
    rw [getField_delField_self (withFeedback s t f v c) "feedback"
      (nodup_keys_setField s "feedback" (fbVal t f v c) hnodup)]
    rfl
  have hne1 : (withFeedback s t f v c).isEmpty = false :=
    setField_ne_nil s "feedback" (fbVal t f v c)
  refine ⟨?_, ?_, hfb2, ?_⟩
  · exact upsert_feedback_found st pre post s t f v c hfail hsteps ht hf hs1 hs2 hpre hkey
  · have h := delete_feedback_removes (st.withSteps (pre ++ withFeedback s t f v c :: post))
      pre post (withFeedback s t f v c) t f
      (by rw [Store.withSteps_failing]; exact hfail)
      (Store.withSteps_steps st _)
      hsplit
      (by rw [hbtid]; exact hs1)
      (by rw [hbpid]; exact hs2)
      hpre
      (by intro d hd; rw [hbid, hbtid]; exact hkey d hd)
      hfb1 hne1
    rw [h, Store.withSteps_withSteps]
    rfl
  · have h := delete_feedback_no_field (st.withSteps (pre ++ withoutFeedback s t f v c :: post))
      pre post (withoutFeedback s t f v c) t f
      (by rw [Store.withSteps_failing]; exact hfail)
      (Store.withSteps_steps st _)
      hsplit
      (by rw [hb2tid]; exact hs1)
      (by rw [hb2pid]; exact hs2)
      hpre
      hfb2
    exact h

def c9FallbackStep : Doc :=
  [("id", Value.str "s9"), ("threadId", Value.str "t9"),
   ("createdAt", Value.str "2024-05-03T00:00:00")]

def c9FallbackStore : Store := ⟨[], [], [c9FallbackStep], [], false⟩

/-- C9 counterexample: the target (t9, s9) is resolvable — step s9 exists in
thread t9, which the specified id fallback would resolve — yet
`upsert_feedback` does not return "t9::s9": the undefined `_get_step`
fallback raises AttributeError, so the claimed round trip never starts. -/
theorem c9_fallback_only_target_breaks_round_trip :
    getFieldStr c9FallbackStep "id" = some "s9"
    ∧ c9FallbackStep ∈ c9FallbackStore.steps
    ∧ upsert_feedback c9FallbackStore ⟨some "s9", 1, some "t9", none, none⟩ =
        Except.error (PyErr.attributeError "_get_step") :=
  ⟨rfl, List.mem_singleton.mpr rfl, rfl⟩

def c9Child : Doc :=
  [("id", Value.str "s2"), ("threadId", Value.str "t1"),
   ("parentId", Value.str "s1"), ("createdAt", Value.str "2024-05-01T10:01:00")]

def c9Store : Store := ⟨[], [], [c9Child], [], false⟩

theorem c9_feedback_round_trip_witness :
    upsert_feedback c9Store ⟨some "s1", 1, some "t1", none, none⟩ =
        Except.ok ("t1" ++ "::" ++ "s1",
          c9Store.withSteps [withFeedback c9Child "t1" "s1" 1 none])
    ∧ delete_feedback (c9Store.withSteps [withFeedback c9Child "t1" "s1" 1 none])
        ("t1" ++ "::" ++ "s1") =
        Except.ok (true, c9Store.withSteps [withoutFeedback c9Child "t1" "s1" 1 none])
    ∧ hasField (withoutFeedback c9Child "t1" "s1" 1 none) "feedback" = false
    ∧ delete_feedback (c9Store.withSteps [withoutFeedback c9Child "t1" "s1" 1 none])
        ("t1" ++ "::" ++ "s1") =
        Except.ok (false, c9Store.withSteps [withoutFeedback c9Child "t1" "s1" 1 none]) := by
  have T := c9_feedback_round_trip c9Store [] [] c9Child "t1" "s1" 1 none rfl rfl
    (by decide) (by decide) rfl rfl rfl
    (by intro d hd; exact absurd hd (List.not_mem_nil d))
    (by intro d hd; exact absurd hd (List.not_mem_nil d))
    (by decide)
  exact ⟨T.1, T.2.1, T.2.2.1, T.2.2.2⟩

/-! Pagination arithmetic. -/

/-- `start = int(cursor) if cursor else 0`. -/
def startOf (pag : Pagination) : Nat :=
  match pag.cursor with
  | some c => c
  | none => 0

/-- Total version of `threadSummary`, defined on documents that carry an id. -/
def threadSummaryTotal (d : Doc) : Doc :=
  [("id", getD0 d "id"), ("name", (getField d "name").getD Value.null),
   ("createdAt", (getField d "createdAt").getD Value.null)]

/-- Number of pages in a full iteration: the ceiling of N / P. -/
def pageCount (st : Store) (flt : ThreadFilter) (P : Nat) : Nat :=
  ((threadsSorted st flt).length + P - 1) / P

/-- The data of the page at index k (cursor k * P). -/
def pageDataAt (st : Store) (flt : ThreadFilter) (P k : Nat) : List Doc :=
  match list_threads st ⟨P, some (k * P)⟩ flt with
  | Except.ok resp => resp.data
  | Except.error _ => []

def pageHasNextAt (st : Store) (flt : ThreadFilter) (P k : Nat) : Bool :=
  match list_threads st ⟨P, some (k * P)⟩ flt with
  | Except.ok resp => resp.pageInfo.hasNextPage
  | Except.error _ => false

def pageNextCursorAt (st : Store) (flt : ThreadFilter) (P k : Nat) : Option Nat :=
  match list_threads st ⟨P, some (k * P)⟩ flt with
  | Except.ok resp => resp.pageInfo.endCursor
  | Except.error _ => none

theorem threadSummary_ok (d : Doc) (h : hasField d "id" = true) :
    threadSummary d = Except.ok (threadSummaryTotal d) := by
  unfold hasField at h
  unfold threadSummary threadSummaryTotal getD0
  cases hv : getField d "id" with
  | none => rw [hv] at h; simp at h
  | some v => rfl

theorem mapM_threadSummary (l : List Doc) (h : ∀ d ∈ l, hasField d "id" = true) :
    l.mapM threadSummary = Except.ok (l.map threadSummaryTotal) := by
  induction l with
  | nil => rfl
  | cons d rest ih =>
      have hd : hasField d "id" = true := h d (List.mem_cons_self d rest)
      have hrest : ∀ x ∈ rest, hasField x "id" = true :=
        fun x hx => h x (List.mem_cons_of_mem d hx)
      rw [List.mapM_cons, threadSummary_ok d hd, ih hrest]
      rfl

theorem list_threads_slice (st : Store) (flt : ThreadFilter) (pag : Pagination)
    (hfail : st.failing = false)
    (hids : ∀ d ∈ st.threads, hasField d "id" = true) :
    list_threads st pag flt = Except.ok
      ⟨(((threadsSorted st flt).drop (startOf pag)).take pag.first).map threadSummaryTotal,
       ⟨decide (startOf pag + pag.first < (threadsSorted st flt).length),
        pag.cursor,
        if startOf pag + pag.first < (threadsSorted st flt).length
        then some (startOf pag + pag.first) else none⟩⟩ := by
  have hq : threadsListQuery st flt = Except.ok (threadsSorted st flt) := by
    simp [threadsListQuery, hfail]
  have hmem : ∀ d ∈ ((threadsSorted st flt).drop (startOf pag)).take pag.first,
      hasField d "id" = true := by
    intro d hd
    have h1 : d ∈ (threadsSorted st flt).drop (startOf pag) :=
      List.take_subset pag.first _ hd
    have h2 : d ∈ threadsSorted st flt := List.drop_subset (startOf pag) _ h1
    have h3 : d ∈ st.threads.filter
        (fun x => userIdMatches flt.userId x && searchMatches flt.search x) :=
      (List.perm_insertionSort threadDesc _).mem_iff.mp h2
    exact hids d (List.mem_of_mem_filter h3)
  rw [list_threads, hq]
  simp only [startOf, decide_eq_true_eq]
  simp only [startOf] at hmem
  rw [mapM_threadSummary _ hmem]

theorem lt_ceil_iff (P : Nat) (hP : 0 < P) (m N : Nat) :
    m < (N + P - 1) / P ↔ m * P < N := by
  constructor
  · intro h
    have h2 : (m + 1) * P ≤ N + P - 1 := (Nat.le_div_iff_mul_le hP).mp h
    rw [Nat.succ_mul] at h2
    generalize hmp : m * P = q at h2 ⊢
    omega
  · intro h
    have goal2 : (m + 1) * P ≤ N + P - 1 := by
      rw [Nat.succ_mul]
      generalize hmp : m * P = q at h ⊢
      omega
    exact (Nat.le_div_iff_mul_le hP).mpr goal2

theorem join_chunks {α : Type} (P : Nat) (hP : 0 < P) :
    ∀ n (l : List α), l.length = n →
      ((List.range ((l.length + P - 1) / P)).map
        (fun k => (l.drop (k * P)).take P)).flatten = l := by
  intro n
  induction n using Nat.strong_induction_on with
  | _ n ih =>
      intro l hl
      cases l with
      | nil =>
          have hc : ((List.length ([] : List α)) + P - 1) / P = 0 := by
            simp only [List.length_nil, Nat.zero_add]
            exact Nat.div_eq_of_lt (Nat.sub_lt hP Nat.one_pos)
          rw [hc]
          rfl
      | cons a l2 =>
          have hn : l2.length + 1 = n := by simpa using hl
          have hceil : ((a :: l2).length + P - 1) / P = l2.length / P + 1 := by
            have h1 : (a :: l2).length + P - 1 = l2.length + P := by
              simp only [List.length_cons]
              omega
            rw [h1, Nat.add_div_right _ hP]
          have hceil2 : l2.length / P = (((a :: l2).drop P).length + P - 1) / P := by
            rw [List.length_drop]
            simp only [List.length_cons]
            by_cases hLP : l2.length + 1 ≤ P
            · have e1 : l2.length + 1 - P = 0 := by omega
              rw [e1, Nat.zero_add, Nat.div_eq_of_lt (by omega : l2.length < P),
                Nat.div_eq_of_lt (Nat.sub_lt hP Nat.one_pos)]
            · have e1 : l2.length + 1 - P + P - 1 = l2.length := by omega
              rw [e1]
          have hdroplen : ((a :: l2).drop P).length < n := by
            have hlen : ((a :: l2).drop P).length = l2.length + 1 - P := by
              rw [List.length_drop, List.length_cons]
            omega
          have hIH := ih ((a :: l2).drop P).length hdroplen ((a :: l2).drop P) rfl
          have hfun : ((fun k => ((a :: l2).drop (k * P)).take P) ∘ Nat.succ) =
              (fun k => (((a :: l2).drop P).drop (k * P)).take P) := by
            funext k
            simp only [Function.comp_apply]
            rw [List.drop_drop]
            congr 1
            rw [Nat.succ_mul, Nat.add_comm (k * P) P]
          rw [hceil, List.range_succ_eq_map, List.map_cons, List.flatten_cons,
            List.map_map, hfun, hceil2, hIH, Nat.zero_mul, List.drop_zero]
          exact List.take_append_drop P (a :: l2)

/-- C4: `list_threads` treats the cursor as a zero-based offset into the
full filtered, createdAt-descending result set: the page is the slice
[start, start + P), hasNextPage is true exactly when N exceeds start + P,
and the next cursor is start + P exactly when there is a next page.
Consequently paging with page size P > 0 from cursor 0 yields ceil(N / P)
pages — page k being the slice at offset k * P — that are pairwise disjoint
slices whose in-order concatenation is the full sorted result set, with
hasNextPage false exactly on the last page and each next cursor pointing at
the following page. -/
theorem c4_pagination_offset_cursor (st : Store) (flt : ThreadFilter)
    (pag : Pagination) (P : Nat)
    (hfail : st.failing = false) (hP : 0 < P)
    (hids : ∀ d ∈ st.threads, hasField d "id" = true) :
    list_threads st pag flt = Except.ok
      ⟨(((threadsSorted st flt).drop (startOf pag)).take pag.first).map threadSummaryTotal,
       ⟨decide (startOf pag + pag.first < (threadsSorted st flt).length),
        pag.cursor,
        if startOf pag + pag.first < (threadsSorted st flt).length
        then some (startOf pag + pag.first) else none⟩⟩
    ∧ (List.range (pageCount st flt P)).map (pageDataAt st flt P) =
        (List.range (pageCount st flt P)).map
          (fun k => (((threadsSorted st flt).map threadSummaryTotal).drop (k * P)).take P)
    ∧ ((List.range (pageCount st flt P)).map (pageDataAt st flt P)).flatten =
        (threadsSorted st flt).map threadSummaryTotal
    ∧ (List.range (pageCount st flt P)).map (pageHasNextAt st flt P) =
        (List.range (pageCount st flt P)).map
          (fun k => decide (k + 1 < pageCount st flt P))
    ∧ (List.range (pageCount st flt P)).map (pageNextCursorAt st flt P) =
        (List.range (pageCount st flt P)).map
          (fun k => if k + 1 < pageCount st flt P then some ((k + 1) * P) else none) := by
  have hpage := fun k =>
    list_threads_slice st flt ⟨P, some (k * P)⟩ hfail hids
  have hdata : ∀ k, pageDataAt st flt P k =
      (((threadsSorted st flt).map threadSummaryTotal).drop (k * P)).take P := by
    intro k
    rw [pageDataAt, hpage k]
    show (((threadsSorted st flt).drop (k * P)).take P).map threadSummaryTotal = _
    rw [List.map_take, List.map_drop]
  have hiff : ∀ k, (k * P + P < (threadsSorted st flt).length) ↔
      (k + 1 < pageCount st flt P) := by
    intro k
    rw [pageCount, lt_ceil_iff P hP, Nat.succ_mul]
  refine ⟨list_threads_slice st flt pag hfail hids, ?_, ?_, ?_, ?_⟩
  · apply List.map_congr_left
    intro k _
    exact hdata k
  · have hb1 : (List.range (pageCount st flt P)).map (pageDataAt st flt P) =
        (List.range (pageCount st flt P)).map
          (fun k => (((threadsSorted st flt).map threadSummaryTotal).drop (k * P)).take P) := by
      apply List.map_congr_left
      intro k _
      exact hdata k
    rw [hb1]
    have hlen : pageCount st flt P =
        (((threadsSorted st flt).map threadSummaryTotal).length + P - 1) / P := by
      rw [pageCount, List.length_map]
    rw [hlen]
    exact join_chunks P hP _ ((threadsSorted st flt).map threadSummaryTotal) rfl
  · apply List.map_congr_left
    intro k _
    rw [pageHasNextAt, hpage k]
    show decide (startOf ⟨P, some (k * P)⟩ + P < (threadsSorted st flt).length) = _
    rw [show startOf ⟨P, some (k * P)⟩ = k * P from rfl]
    exact decide_eq_decide.mpr (hiff k)
  · apply List.map_congr_left
    intro k _
    rw [pageNextCursorAt, hpage k]
    show (if startOf ⟨P, some (k * P)⟩ + P < (threadsSorted st flt).length
      then some (startOf ⟨P, some (k * P)⟩ + P) else none) = _
    rw [show startOf ⟨P, some (k * P)⟩ = k * P from rfl]
    exact if_congr (hiff k) (by rw [Nat.succ_mul]) rfl

def c4t1 : Doc :=
  [("id", Value.str "w1"), ("userId", Value.str "u4"),
   ("createdAt", Value.str "2024-05-03T00:00:00Z"), ("name", Value.str "alpha")]

def c4t2 : Doc :=
  [("id", Value.str "w2"), ("userId", Value.str "u4"),
   ("createdAt", Value.str "2024-05-02T00:00:00Z"), ("name", Value.str "beta")]

def c4t3 : Doc :=
  [("id", Value.str "w3"), ("userId", Value.str "u4"),
   ("createdAt", Value.str "2024-05-01T00:00:00Z"), ("name", Value.str "gamma")]

/-- Three threads of one user, stored out of creation order. -/
def c4store : Store := ⟨[], [c4t3, c4t1, c4t2], [], [], false⟩

def c4flt : ThreadFilter := ⟨some "u4", none⟩

theorem c4_pagination_offset_cursor_witness :
    list_threads c4store ⟨2, none⟩ c4flt = Except.ok
      ⟨(((threadsSorted c4store c4flt).drop (startOf ⟨2, none⟩)).take 2).map threadSummaryTotal,
       ⟨decide (startOf ⟨2, none⟩ + 2 < (threadsSorted c4store c4flt).length),
        none,
        if startOf ⟨2, none⟩ + 2 < (threadsSorted c4store c4flt).length
        then some (startOf ⟨2, none⟩ + 2) else none⟩⟩
    ∧ (List.range (pageCount c4store c4flt 2)).map (pageDataAt c4store c4flt 2) =
        (List.range (pageCount c4store c4flt 2)).map
          (fun k => (((threadsSorted c4store c4flt).map threadSummaryTotal).drop (k * 2)).take 2)
    ∧ ((List.range (pageCount c4store c4flt 2)).map (pageDataAt c4store c4flt 2)).flatten =
        (threadsSorted c4store c4flt).map threadSummaryTotal
    ∧ (List.range (pageCount c4store c4flt 2)).map (pageHasNextAt c4store c4flt 2) =
        (List.range (pageCount c4store c4flt 2)).map
          (fun k => decide (k + 1 < pageCount c4store c4flt 2))
    ∧ (List.range (pageCount c4store c4flt 2)).map (pageNextCursorAt c4store c4flt 2) =
        (List.range (pageCount c4store c4flt 2)).map
          (fun k => if k + 1 < pageCount c4store c4flt 2 then some ((k + 1) * 2) else none) :=
  c4_pagination_offset_cursor c4store c4flt ⟨2, none⟩ 2 rfl (by decide) (by decide)
